import Mathlib

/-
  Verification development for the linkinator crawl engine.

  The embedding translates the crawl coordinator of `src/index.ts`
  (`LinkChecker.check`, `LinkChecker.crawl`, `LinkChecker.shouldRetryAfter`,
  `isHtml`) and the link extractor of `src/links.ts` (`getLinks`,
  `normalizeLink`) into executable Lean definitions.

  External collaborators (the HTTP client, the URL parser, the HTML parser,
  the regular-expression engine, the JS `Number` and `Date` builtins) are
  modelled as oracle fields of an `Env` record; the crawl logic itself is
  translated statement by statement from the source.  JS numbers that can be
  `NaN` (the computed retry deadlines) are modelled as `Option Int`, with
  `none` playing the role of `NaN`; JS truthiness and the JS `>` comparison
  on such values are modelled by `jsTruthy` and `jsGt`.

  The concurrent work queue is modelled as a FIFO list of pending tasks
  processed sequentially; `Date.now()` is modelled by a time counter that
  advances by one per processed task.  Delay amounts attached to queued
  tasks are recorded but do not reorder the queue (the claims below concern
  set-shaped invariants and single-step behaviour, which the spec itself
  says are independent of scheduling order).
-/

/-- Model of a WHATWG `URL` object as the crawl code reads it: the
`protocol` (including the trailing colon), the `host`, the serialization
without the fragment part, and the fragment part `hash` (empty, or starting
with `#`).  `href` is the full serialization. -/
structure Url where
  protocol : String
  host : String
  sansHash : String
  hash : String
deriving DecidableEq

/-- The serialization of a URL: fragment-free part followed by the
fragment part (which carries its own leading `#`, as `url.hash` does in JS). -/
def Url.href (u : Url) : String := u.sansHash ++ u.hash

/-- HTTP request methods used by the probe ladder. -/
inductive Method | GET | HEAD
deriving DecidableEq

/-- The gaxios `responseType` values used by the probe ladder. -/
inductive RespType | text | stream
deriving DecidableEq

/-- Model of a gaxios response: status, headers (names already lowercased,
as Node delivers them) and the body text. -/
structure Response where
  status : Nat
  headers : List (String × String)
  data : String
deriving DecidableEq

/-- Look a header up by (lowercased) name, as `res.headers[name]` does. -/
def headerLookup (hs : List (String × String)) (k : String) : Option String :=
  (hs.find? (fun p => p.1 == k)).map (fun p => p.2)

/-- `charsPrefix need hay` holds when `need` is a prefix of `hay`. -/
def charsPrefix : List Char → List Char → Bool
  | [], _ => true
  | _ :: _, [] => false
  | a :: as, b :: bs => a == b && charsPrefix as bs

/-- `charsContains hay need` holds when `need` occurs contiguously in `hay`. -/
def charsContains : List Char → List Char → Bool
  | [], need => charsPrefix need []
  | h :: t, need => charsPrefix need (h :: t) || charsContains t need

/-- Substring test on strings, the semantics of a flagless JS regex literal
made of plain characters applied via `String.prototype.match`. -/
def containsSub (hay sub : String) : Bool :=
  charsContains hay.toList sub.toList

/-- Translation of `isHtml` (src/index.ts): the `content-type` header, or
`''` when absent, matched against the regexes `/text\/html/g` and
`/application\/xhtml\+xml/g` (both case-sensitive substring tests). -/
def isHtml (res : Response) : Bool :=
  let contentType := (headerLookup res.headers "content-type").getD ""
  containsSub contentType "text/html" || containsSub contentType "application/xhtml+xml"

/-- Translation of `enum LinkState` (src/index.ts). -/
inductive LinkState | OK | BROKEN | SKIPPED
deriving DecidableEq

/-- One entry of a `failureDetails` list: either a thrown request error or
the (possibly undefined) response object pushed for non-2xx statuses. -/
inductive FailureEntry
  | err
  | resp (r : Option Response)
deriving DecidableEq

/-- Translation of `interface LinkResult` (src/index.ts).  Optional fields
of the TS interface are `Option`s; results built by the skip gates omit
`status` and `failureDetails` exactly where the source object literals do. -/
structure LinkResult where
  url : String
  status : Option Nat
  state : LinkState
  parent : Option String
  failureDetails : Option (List FailureEntry)
deriving DecidableEq

/-- Events emitted on the checker instance: `link` and `pagestart`. -/
inductive Event
  | link (r : LinkResult)
  | pagestart (url : String)
deriving DecidableEq

/-- A record of one outbound HTTP request issued by the probe ladder. -/
structure ProbeCall where
  url : String
  method : Method
  responseType : RespType
deriving DecidableEq

/-- Translation of the per-task slice of `interface CrawlOptions`
(src/index.ts): the shared run state is split off into `RunState`. -/
structure CrawlTask where
  url : Url
  crawl : Bool
  parent : Option String
  rootPath : String
deriving DecidableEq

/-- The shared mutable state of one run: the `results` list, the visit
cache, the delay cache (values are JS numbers, `none` = `NaN`), the work
queue (tasks paired with the delay they were scheduled with), plus logs of
the emitted events and of the issued HTTP requests. -/
structure RunState where
  results : List LinkResult
  cache : List String
  delayCache : List (String × Option Int)
  queue : List (CrawlTask × Int)
  events : List Event
  probes : List ProbeCall
deriving DecidableEq

/-- The state a run starts from. -/
def emptyState : RunState :=
  { results := [], cache := [], delayCache := [], queue := [], events := [], probes := [] }

/-- Model of a parsed HTML element as cheerio exposes it: tag name and
attribute list. -/
structure Element where
  tag : String
  attrs : List (String × String)
deriving DecidableEq

/-- Attribute lookup on an element (`element.attribs[attr]`). -/
def getAttr (e : Element) (a : String) : Option String :=
  (e.attrs.find? (fun p => p.1 == a)).map (fun p => p.2)

/-- The environment of external collaborators.  `request` is the HTTP
client keyed by url, method and response type (`none` models a thrown
transport error); `parseHtml` is the lenient HTML parser; `resolve s b`
models `new URL(s, b)` and `parseUrl s` models `new URL(s)` (`none` =
constructor threw); `regexTest p s` models `new RegExp(p).test(s)`;
`numberParse` models the JS `Number` builtin (`none` = `NaN`) and
`dateParse` models `new Date(s).getTime()` (`none` = `NaN`). -/
structure Env where
  request : String → Method → RespType → Option Response
  parseHtml : String → List Element
  resolve : String → String → Option Url
  parseUrl : String → Option Url
  regexTest : String → String → Bool
  numberParse : String → Option Int
  dateParse : String → Option Int

/-- The slice of `CheckOptions` the crawl coordinator reads per task:
`recurse` and `linksToSkip` (either the async predicate, modelled as a
boolean function, or the list of regex strings; `check` defaults it to an
empty list). -/
structure CheckOpts where
  recurse : Bool
  linksToSkip : (String → Bool) ⊕ List String

/-- Translation of the `linksAttr` table of src/links.ts, in source
(insertion) order. -/
def linksAttr : List (String × List String) :=
  [ ("background", ["body"]),
    ("cite", ["blockquote", "del", "ins", "q"]),
    ("data", ["object"]),
    ("href", ["a", "area", "embed", "link"]),
    ("icon", ["command"]),
    ("longdesc", ["frame", "iframe"]),
    ("manifest", ["html"]),
    ("poster", ["video"]),
    ("pluginspage", ["embed"]),
    ("pluginurl", ["embed"]),
    ("src", ["audio", "embed", "frame", "iframe", "img", "input", "script",
             "source", "track", "video"]) ]

/-- The raw attribute values collected by `getLinks` (src/links.ts): for
each entry of `linksAttr` in order, the attribute value of every element
whose tag is in the entry's tag set and which carries the attribute. -/
def extractRaw (doc : List Element) : List String :=
  linksAttr.foldl
    (fun acc p =>
      acc ++ (doc.filter (fun e => p.2.contains e.tag && (getAttr e p.1).isSome)).map
        (fun e => (getAttr e p.1).getD ""))
    []

/-- Translation of `normalizeLink` (src/links.ts): resolve against the base
URL, clear the fragment and return the serialization; if the URL
constructor throws, return the original link string. -/
def normalizeLink (resolve : String → String → Option Url) (link baseUrl : String) : String :=
  match resolve link baseUrl with
  | some slink => Url.href { slink with hash := "" }
  | none => link

/-- Translation of `getLinks` (src/links.ts): collect the attribute values,
drop empty ones, and map `normalizeLink` over the rest.  Note the return
type: a list of plain strings. -/
def getLinks (env : Env) (source baseUrl : String) : List String :=
  ((extractRaw (env.parseHtml source)).filter (fun l => l ≠ "")).map
    (fun l => normalizeLink env.resolve l baseUrl)

/-- A link/URL pair as the crawl coordinator consumes it
(`result.link` / `result.url` in src/index.ts lines 419-433). -/
structure ParsedLink where
  link : String
  url : Option Url
deriving DecidableEq

/-- Modelled from the spec: the link-extractor interface the crawl
coordinator consumes — `{ originalHref, url | none }` pairs, the URL
resolved against the base with the fragment cleared, `none` when
resolution fails (spec 4.1 step 4).  The `getLinks` of src/links.ts in
this tree returns bare strings and does not match its caller `crawl`,
which reads `result.url` and `result.link`; this definition supplies the
pair-shaped extractor that caller requires. -/
def parseLinkP (resolve : String → String → Option Url) (link baseUrl : String) : ParsedLink :=
  match resolve link baseUrl with
  | some u => { link := link, url := some { u with hash := "" } }
  | none => { link := link, url := none }

/-- Modelled from the spec: pair-returning variant of `getLinks`
(see `parseLinkP`); extraction, empty-value filtering and iteration order
are those of src/links.ts. -/
def getLinksP (env : Env) (source baseUrl : String) : List ParsedLink :=
  ((extractRaw (env.parseHtml source)).filter (fun l => l ≠ "")).map
    (fun l => parseLinkP env.resolve l baseUrl)

/-- JS `>` on numbers that may be `NaN` (`none`): any comparison involving
`NaN` is false. -/
def jsGt : Option Int → Option Int → Bool
  | some a, some b => a > b
  | _, _ => false

/-- JS truthiness of a number that may be `NaN`: `0` and `NaN` are falsy. -/
def jsTruthy : Option Int → Bool
  | some v => v != 0
  | none => false

/-- `Map.get` on the delay cache. -/
def lookupDC (dc : List (String × Option Int)) (k : String) : Option (Option Int) :=
  (dc.find? (fun p => p.1 == k)).map (fun p => p.2)

/-- `Map.set` on the delay cache: replace in place, or append a new entry. -/
def setDC (dc : List (String × Option Int)) (k : String) (v : Option Int) :
    List (String × Option Int) :=
  if (dc.find? (fun p => p.1 == k)).isSome then
    dc.map (fun p => if p.1 == k then (k, v) else p)
  else dc ++ [(k, v)]

/-- `Map.delete` on the delay cache. -/
def removeDC (dc : List (String × Option Int)) (k : String) :
    List (String × Option Int) :=
  dc.filter (fun p => !(p.1 == k))

/-- The retry deadline computed by `shouldRetryAfter` (src/index.ts lines
487-496): `Number(raw) * 1000 + Date.now()`, falling back to
`new Date(raw).getTime()` when the first product is `NaN`.  `none` = `NaN`. -/
def computeRetryAfter (env : Env) (now : Int) (raw : String) : Option Int :=
  match env.numberParse raw with
  | some n => some (n * 1000 + now)
  | none => env.dateParse raw

/-- Append a result to `results` and fire the corresponding `link` event,
the `opts.results.push(r); this.emit('link', r)` pattern of src/index.ts. -/
def pushResult (st : RunState) (r : LinkResult) : RunState :=
  { st with results := st.results ++ [r], events := st.events ++ [Event.link r] }

/-- Record an outbound HTTP request in the probe log. -/
def logProbe (st : RunState) (u : String) (m : Method) (rt : RespType) : RunState :=
  { st with probes := st.probes ++ [{ url := u, method := m, responseType := rt }] }

/-- Translation of `LinkChecker.shouldRetryAfter` (src/index.ts lines
477-521).  Returns the JS number the method returns (truthiness decides the
caller's early return) together with the updated state: the delay-cache
write (larger value wins under the JS `>` comparison; note a `NaN`
deadline is still written when the host has no entry) and the conditional
re-enqueue of the same task with delay `retryAfter - Date.now()`. -/
def shouldRetryAfter (env : Env) (now : Int) (t : CrawlTask) (res : Response)
    (st : RunState) : Option Int × RunState :=
  match headerLookup res.headers "retry-after" with
  | none => (some 0, st)
  | some raw =>
    if res.status ≠ 429 ∨ raw = "" then (some 0, st)
    else
      let retryAfter := computeRetryAfter env now raw
      let dc :=
        match lookupDC st.delayCache t.url.host with
        | some cur =>
          if jsGt retryAfter cur then setDC st.delayCache t.url.host retryAfter
          else st.delayCache
        | none => setDC st.delayCache t.url.host retryAfter
      let st1 := { st with delayCache := dc }
      let st2 :=
        if jsTruthy retryAfter then
          { st1 with queue := st1.queue ++ [(t, retryAfter.getD 0 - now)] }
        else st1
      (retryAfter, st2)

/-- The body of the child-link loop of `crawl` (src/index.ts lines
420-466): an unresolvable link produces an immediate BROKEN result with
status 0; otherwise the recursion flag is computed from `recurse`, the
`startsWith(rootPath)` prefix test and the host-equality test
(`new URL(rootPath)` failing leaves the flag as computed), and the child
task is enqueued only when its URL string is not in the visit cache, the
cache being extended in the same step. -/
def childStep (env : Env) (opts : CheckOpts) (parentHref rootPath : String)
    (st : RunState) (pl : ParsedLink) : RunState :=
  match pl.url with
  | none =>
    pushResult st
      { url := pl.link, status := some 0, state := LinkState.BROKEN,
        parent := some parentHref, failureDetails := none }
  | some u =>
    let c1 := opts.recurse && u.href.startsWith rootPath
    let c :=
      if c1 then
        match env.parseUrl rootPath with
        | some pathUrl => u.host == pathUrl.host
        | none => c1
      else c1
    if u.href ∈ st.cache then st
    else
      { st with
        cache := st.cache ++ [u.href],
        queue := st.queue ++
          [({ url := u, crawl := c, parent := some parentHref, rootPath := rootPath }, 0)] }

/-- The `status` variable of `crawl` after the ladder (src/index.ts lines
330, 393-394): the response status, or 0 when every attempt threw. -/
def statusOf : Option Response → Nat
  | some r => r.status
  | none => 0

/-- The `data` variable of `crawl` (src/index.ts lines 332, 395). -/
def dataOf : Option Response → String
  | some r => r.data
  | none => ""

/-- The `shouldRecurse` variable of `crawl` (src/index.ts lines 333, 396). -/
def isHtmlOf : Option Response → Bool
  | some r => isHtml r
  | none => false

/-- The 2xx classification of `crawl` (src/index.ts line 400). -/
def is2xx (res : Option Response) : Bool :=
  decide (200 ≤ statusOf res) && decide (statusOf res < 300)

/-- The guard of the third ladder rung (src/index.ts lines 372-375): the
response is missing or has a non-2xx status. -/
def non2xx : Option Response → Bool
  | none => true
  | some r => decide (r.status < 200) || decide (300 ≤ r.status)

/-- The LinkResult `crawl` builds for the probed URL (src/index.ts lines
399-412): `OK` iff 2xx, with the response record joining `failureDetails`
otherwise. -/
def mainResult (t : CrawlTask) (res : Option Response)
    (failures : List FailureEntry) : LinkResult :=
  { url := t.url.href, status := some (statusOf res),
    state := if is2xx res then LinkState.OK else LinkState.BROKEN,
    parent := t.parent,
    failureDetails := some (if is2xx res then failures
                            else failures ++ [FailureEntry.resp res]) }

/-- The tail of `crawl` after the probe ladder (src/index.ts lines
393-467): classify the response, append and emit the LinkResult, and when
the task wants a crawl and the response was HTML, fire `pagestart` and walk
the extracted links. -/
def finish (env : Env) (opts : CheckOpts) (t : CrawlTask) (st : RunState)
    (res : Option Response) (failures : List FailureEntry) : RunState :=
  let st1 := pushResult st (mainResult t res failures)
  if t.crawl && isHtmlOf res then
    let st2 := { st1 with events := st1.events ++ [Event.pagestart t.url.href] }
    (getLinksP env (dataOf res) t.url.href).foldl (childStep env opts t.url.href t.rootPath) st2
  else st1

/-- The body of the third rung of the probe ladder: the `GET`/text retry
itself (the second `try` block of src/index.ts lines 370-391): a thrown
retry keeps the previous response and appends to `failureDetails`; a
received response goes through `shouldRetryAfter`, whose truthy return
aborts the attempt, and otherwise replaces the previous response. -/
def ladder3Get (env : Env) (opts : CheckOpts) (now : Int) (t : CrawlTask)
    (st : RunState) (res : Option Response) (failures : List FailureEntry) : RunState :=
  let st1 := logProbe st t.url.href Method.GET RespType.text
  match env.request t.url.href Method.GET RespType.text with
  | none => finish env opts t st1 res (failures ++ [FailureEntry.err])
  | some r3 =>
    let s := shouldRetryAfter env now t r3 st1
    if jsTruthy s.1 then s.2
    else finish env opts t s.2 (some r3) failures

/-- The third rung of the probe ladder (src/index.ts lines 370-391): when
the previous attempts threw or produced a non-2xx status and the task does
not want a body, retry as `GET` with a text response (`ladder3Get`);
otherwise fall through to the classification tail. -/
def ladder3 (env : Env) (opts : CheckOpts) (now : Int) (t : CrawlTask)
    (st : RunState) (res : Option Response) (failures : List FailureEntry) : RunState :=
  if non2xx res && !t.crawl then
    ladder3Get env opts now t st res failures
  else finish env opts t st res failures

/-- The first two rungs of the probe ladder (src/index.ts lines 329-368):
`HEAD`/stream for reachability checks, `GET`/text for crawls; a 405 answer
is retried as `GET`/stream (regardless of the crawl flag); each received
response is first run through `shouldRetryAfter`, whose truthy return
aborts the attempt; a thrown request appends to `failureDetails` and falls
through to the third rung. -/
def probePhase (env : Env) (opts : CheckOpts) (now : Int) (t : CrawlTask)
    (st : RunState) : RunState :=
  let href := t.url.href
  let m1 := if t.crawl then Method.GET else Method.HEAD
  let rt1 := if t.crawl then RespType.text else RespType.stream
  let st1 := logProbe st href m1 rt1
  match env.request href m1 rt1 with
  | none => ladder3 env opts now t st1 none [FailureEntry.err]
  | some r1 =>
    let s1 := shouldRetryAfter env now t r1 st1
    if jsTruthy s1.1 then s1.2
    else if r1.status = 405 then
      let st2 := logProbe s1.2 href Method.GET RespType.stream
      match env.request href Method.GET RespType.stream with
      | none => ladder3 env opts now t st2 (some r1) [FailureEntry.err]
      | some r2 =>
        let s2 := shouldRetryAfter env now t r2 st2
        if jsTruthy s2.1 then s2.2
        else ladder3 env opts now t s2.2 (some r2) []
    else ladder3 env opts now t s1.2 (some r1) []

/-- The delay-cache gate of `crawl` (src/index.ts lines 311-327): a cached
deadline strictly in the future (under the JS `>`, so a `NaN` entry never
defers) re-enqueues the same task with the remaining delay; otherwise the
entry, when present, is evicted and the probe proceeds. -/
def delayPhase (env : Env) (opts : CheckOpts) (now : Int) (t : CrawlTask)
    (st : RunState) : RunState :=
  match lookupDC st.delayCache t.url.host with
  | some tv =>
    if jsGt tv (some now) then
      { st with queue := st.queue ++ [(t, tv.getD 0 - now)] }
    else
      probePhase env opts now t { st with delayCache := removeDC st.delayCache t.url.host }
  | none => probePhase env opts now t st

/-- The caller-configured skip gates of `crawl` (src/index.ts lines
276-309): the async predicate, or the regex list of which at least one
pattern matches.  Both source gates push the same result record
`{url, state: SKIPPED, parent}` and return, so they are translated as one
test. -/
def skipMatch (env : Env) (opts : CheckOpts) (href : String) : Bool :=
  match opts.linksToSkip with
  | Sum.inl f => f href
  | Sum.inr arr => decide ((arr.filter (fun p => env.regexTest p href)).length > 0)

/-- Translation of `LinkChecker.crawl` (src/index.ts lines 261-468) for one
task: the non-http(s) scheme gate (SKIPPED with status 0), the
caller-configured skip gates (SKIPPED without a status), the delay-cache
gate, then the probe ladder and the classification/recursion tail. -/
def crawlStep (env : Env) (opts : CheckOpts) (now : Int) (t : CrawlTask)
    (st : RunState) : RunState :=
  if t.url.protocol ≠ "http:" ∧ t.url.protocol ≠ "https:" then
    pushResult st
      { url := t.url.href, status := some 0, state := LinkState.SKIPPED,
        parent := t.parent, failureDetails := none }
  else if skipMatch env opts t.url.href then
    pushResult st
      { url := t.url.href, status := none, state := LinkState.SKIPPED,
        parent := t.parent, failureDetails := none }
  else delayPhase env opts now t st

/-- `Set.add` on the visit cache (add-if-absent, order-preserving). -/
def setAdd (l : List String) (s : String) : List String :=
  if s ∈ l then l else l ++ [s]

/-- One iteration of the start loop of `check` (src/index.ts lines
112-127): parse the path, pre-add its serialization to the visit cache, and
enqueue the initial crawl task (unconditionally) with `rootPath` the raw
path string. -/
def addStart (env : Env) (p : String) (st : RunState) : Option RunState :=
  (env.parseUrl p).map (fun u =>
    { st with
      cache := setAdd st.cache u.href,
      queue := st.queue ++ [({ url := u, crawl := true, parent := none, rootPath := p }, 0)] })

/-- The start loop of `check` over all paths; `none` when some path fails
to parse (the JS run would reject). -/
def startFrom (env : Env) (st : RunState) : List String → Option RunState
  | [] => some st
  | p :: ps => (addStart env p st).bind (fun st' => startFrom env st' ps)

/-- The run state after the start loop of `check`. -/
def startState (env : Env) (paths : List String) : Option RunState :=
  startFrom env emptyState paths

/-- The queue drain (`await queue.onIdle()`): process tasks FIFO, the time
counter advancing by one per task; `none` when the fuel is exhausted with
tasks still pending. -/
def runLoop (env : Env) (opts : CheckOpts) : Nat → Int → RunState → Option RunState
  | 0, _, st => match st.queue with | [] => some st | _ :: _ => none
  | fuel + 1, now, st =>
    match st.queue with
    | [] => some st
    | (t, _) :: rest =>
      runLoop env opts fuel (now + 1) (crawlStep env opts now t { st with queue := rest })

/-- A whole run: start loop followed by the queue drain. -/
def runStates (env : Env) (opts : CheckOpts) (paths : List String) (fuel : Nat)
    (t0 : Int) : Option RunState :=
  (startState env paths).bind (runLoop env opts fuel t0)

/-- Translation of `interface CrawlResult` (src/index.ts). -/
structure CrawlResult where
  passed : Bool
  links : List LinkResult
deriving DecidableEq

/-- The result assembly at the end of `check` (src/index.ts lines
130-133): `passed` iff the BROKEN filter of the result list is empty. -/
def mkCrawlResult (links : List LinkResult) : CrawlResult :=
  { links := links,
    passed := (links.filter (fun x => x.state == LinkState.BROKEN)).length == 0 }

/-- Translation of `check` for HTTP paths (no local server): run the crawl
to idleness and assemble the `CrawlResult`. -/
def runCheck (env : Env) (opts : CheckOpts) (paths : List String) (fuel : Nat)
    (t0 : Int) : Option CrawlResult :=
  (runStates env opts paths fuel t0).map (fun st => mkCrawlResult st.results)

/-- Number of results whose `url` equals `u`. -/
def urlCount (rs : List LinkResult) (u : String) : Nat :=
  rs.countP (fun r => r.url == u)

/-- Number of queued tasks whose URL serialization equals `u`. -/
def queueCount (q : List (CrawlTask × Int)) (u : String) : Nat :=
  q.countP (fun e => e.1.url.href == u)

/-- The serializations of the successfully parsed starting paths, in
order. -/
def startHrefs (env : Env) (paths : List String) : List String :=
  paths.filterMap (fun p => (env.parseUrl p).map Url.href)

/-- A string on which URL resolution fails against some base. -/
def failedRaw (env : Env) (s : String) : Prop :=
  ∃ b, env.resolve s b = none

/-- Well-behavedness of the URL oracle, as the WHATWG URL standard
guarantees: the serialization of a parsed URL (fragment cleared or not) is
absolute and therefore resolves against every base. -/
structure GoodEnv (env : Env) : Prop where
  resolveOk : ∀ s b u, env.resolve s b = some u →
    ∀ b', env.resolve (Url.href { u with hash := "" }) b' ≠ none
  parseOk : ∀ p u, env.parseUrl p = some u → ∀ b', env.resolve u.href b' ≠ none

/-- The run invariant tying the visit cache to results and queue: every
cached URL is owed exactly one result-or-pending-task, every queued task is
cached, every result is for a cached URL or for a raw string that failed
resolution, and no cached URL is such a failed raw string. -/
structure InvT (env : Env) (rs : List LinkResult) (c : List String)
    (q : List (CrawlTask × Int)) : Prop where
  counts : ∀ u ∈ c, urlCount rs u + queueCount q u = 1
  qcache : ∀ e ∈ q, e.1.url.href ∈ c
  rOk : ∀ r ∈ rs, r.url ∈ c ∨ failedRaw env r.url
  cacheOk : ∀ u ∈ c, ¬ failedRaw env u

/-- The run invariant on a state. -/
def RunInv (env : Env) (st : RunState) : Prop :=
  InvT env st.results st.cache st.queue

/-- The invariant in the middle of processing the task for `h`: `h` is
cached and temporarily owed nothing (its task was popped), every other
cached URL is owed exactly one. -/
structure InvP (env : Env) (h : String) (st : RunState) : Prop where
  cmem : h ∈ st.cache
  counts : ∀ u ∈ st.cache,
    urlCount st.results u + queueCount st.queue u = (if u = h then 0 else 1)
  qcache : ∀ e ∈ st.queue, e.1.url.href ∈ st.cache
  rOk : ∀ r ∈ st.results, r.url ∈ st.cache ∨ failedRaw env r.url
  cacheOk : ∀ u ∈ st.cache, ¬ failedRaw env u

/-- The classification shape of a result: `OK` exactly when it carries a
2xx status. -/
def Shape (r : LinkResult) : Prop :=
  r.state = LinkState.OK ↔ ∃ s, r.status = some s ∧ 200 ≤ s ∧ s < 300

/-- A parsed link as produced by the extractor: resolution failure is
witnessed, and a resolved URL never serializes to a failing raw string. -/
def PLgood (env : Env) (pl : ParsedLink) : Prop :=
  (pl.url = none → failedRaw env pl.link) ∧
  (∀ u, pl.url = some u → ¬ failedRaw env u.href)

/-- The `pagestart` events of a state, in order. -/
def pagestarts (st : RunState) : List Event :=
  st.events.filter (fun e => match e with | Event.pagestart _ => true | Event.link _ => false)

/-- A sample response: 200, no headers, empty body. -/
def respOk : Response := { status := 200, headers := [], data := "" }

/-- A sample 405 response. -/
def resp405 : Response := { status := 405, headers := [], data := "" }

/-- A 429 response carrying the given `Retry-After` value. -/
def resp429 (raw : String) : Response :=
  { status := 429, headers := [("retry-after", raw)], data := "" }

/-- A sample URL for the host `h`. -/
def urlOf (s : String) : Url := { protocol := "http:", host := "h", sansHash := s, hash := "" }

/-- A well-behaved sample environment: every request answers `respOk`,
every string parses/resolves to an `http://` URL on host `h` whose
serialization is the string itself, documents are empty, no regex matches,
`Number` parses the integer header values used by the samples and `Date`
parsing always fails. -/
def envW : Env where
  request := fun _ _ _ => some respOk
  parseHtml := fun _ => []
  resolve := fun s _ => some (urlOf s)
  parseUrl := fun s => some (urlOf s)
  regexTest := fun _ _ => false
  numberParse := fun s => if s = "3" then some 3 else if s = "5" then some 5 else none
  dateParse := fun _ => none

/-- Options with recursion off and the default empty skip list. -/
def optsPlain : CheckOpts := { recurse := false, linksToSkip := Sum.inr [] }

/-- A reachability-check task (no crawl) for `http://h/a`. -/
def taskA : CrawlTask :=
  { url := urlOf "http://h/a", crawl := false, parent := none, rootPath := "http://h/a" }

/-- The crawling variant of `taskA`. -/
def taskACrawl : CrawlTask := { taskA with crawl := true }

/-- Environment answering every request with a 429 whose `Retry-After`
fails both parses. -/
def env429nan : Env := { envW with request := fun _ _ _ => some (resp429 "zzz") }

/-- Environment whose stream-typed answers carry an unparseable
`Retry-After` and whose text-typed answers carry `Retry-After: 5`. -/
def env429mix : Env :=
  { envW with
    request := fun _ _ rt =>
      if rt = RespType.text then some (resp429 "5") else some (resp429 "bogus") }

/-- Environment answering every request with `Retry-After: 3` on a 429. -/
def env429int : Env := { envW with request := fun _ _ _ => some (resp429 "3") }

/-- Environment whose text-typed answers are 405 and whose stream-typed
answers are 200. -/
def env405 : Env :=
  { envW with request := fun _ _ rt => if rt = RespType.text then some resp405 else some respOk }

/-- Options with a one-pattern skip list. -/
def optsSkipX : CheckOpts := { recurse := false, linksToSkip := Sum.inr ["x"] }

/-- Environment whose regex oracle matches everything. -/
def envRegexAll : Env := { envW with regexTest := fun _ _ => true }

/-- Document element with an href that fails URL resolution. -/
def elemBad : Element := { tag := "a", attrs := [("href", "%%bad")] }

/-- Document element with an href carrying a fragment. -/
def elemFrag : Element := { tag := "a", attrs := [("href", "x#z")] }

/-- Environment for the extractor: the document holds `elemBad` and
`elemFrag`; `%%bad` fails resolution, everything else resolves to
`http://h/x` with fragment `#z`. -/
def envLinks : Env :=
  { envW with
    parseHtml := fun _ => [elemBad, elemFrag],
    resolve := fun l _ =>
      if l = "%%bad" then none
      else some { protocol := "http:", host := "h", sansHash := "http://h/x", hash := "#z" } }

@[simp] theorem pushResult_results (st : RunState) (r : LinkResult) :
    (pushResult st r).results = st.results ++ [r] := rfl

@[simp] theorem pushResult_cache (st : RunState) (r : LinkResult) :
    (pushResult st r).cache = st.cache := rfl

@[simp] theorem pushResult_queue (st : RunState) (r : LinkResult) :
    (pushResult st r).queue = st.queue := rfl

@[simp] theorem pushResult_delayCache (st : RunState) (r : LinkResult) :
    (pushResult st r).delayCache = st.delayCache := rfl

@[simp] theorem pushResult_events (st : RunState) (r : LinkResult) :
    (pushResult st r).events = st.events ++ [Event.link r] := rfl

@[simp] theorem pushResult_probes (st : RunState) (r : LinkResult) :
    (pushResult st r).probes = st.probes := rfl

@[simp] theorem logProbe_results (st : RunState) (u : String) (m : Method) (rt : RespType) :
    (logProbe st u m rt).results = st.results := rfl

@[simp] theorem logProbe_cache (st : RunState) (u : String) (m : Method) (rt : RespType) :
    (logProbe st u m rt).cache = st.cache := rfl

@[simp] theorem logProbe_queue (st : RunState) (u : String) (m : Method) (rt : RespType) :
    (logProbe st u m rt).queue = st.queue := rfl

@[simp] theorem logProbe_delayCache (st : RunState) (u : String) (m : Method) (rt : RespType) :
    (logProbe st u m rt).delayCache = st.delayCache := rfl

@[simp] theorem logProbe_events (st : RunState) (u : String) (m : Method) (rt : RespType) :
    (logProbe st u m rt).events = st.events := rfl

@[simp] theorem logProbe_probes (st : RunState) (u : String) (m : Method) (rt : RespType) :
    (logProbe st u m rt).probes = st.probes ++ [{ url := u, method := m, responseType := rt }] := rfl

/-- Replacing a present key in the delay cache is visible to `Map.get`. -/
theorem lookupDC_map_replace (dc : List (String × Option Int)) (k : String) (v : Option Int) :
    lookupDC (dc.map (fun p => if p.1 == k then (k, v) else p)) k =
      if (dc.find? (fun p => p.1 == k)).isSome then some v else none := by
  induction dc with
  | nil => simp [lookupDC]
  | cons a tl ih =>
    by_cases ha : (a.1 == k) = true
    · simp only [lookupDC, List.map_cons, ha, if_true]
      rw [@List.find?_cons_of_pos _ (fun p => p.1 == k) (k, v) _ (by simp),
          @List.find?_cons_of_pos _ (fun p => p.1 == k) a _ ha]
      simp
    · simp only [lookupDC, List.map_cons]
      rw [if_neg ha,
          @List.find?_cons_of_neg _ (fun p => p.1 == k) a
            (List.map (fun p => if (p.1 == k) = true then (k, v) else p) tl) ha,
          @List.find?_cons_of_neg _ (fun p => p.1 == k) a tl ha]
      simpa [lookupDC] using ih

/-- Appending a fresh key to the delay cache is visible to `Map.get`. -/
theorem lookupDC_append_absent (dc : List (String × Option Int)) (k : String) (v : Option Int)
    (h : dc.find? (fun p => p.1 == k) = none) :
    lookupDC (dc ++ [(k, v)]) k = some v := by
  simp [lookupDC, List.find?_append, h, List.find?]

/-- A `Map.set` is visible to a subsequent `Map.get` of the same key. -/
theorem lookupDC_setDC_self (dc : List (String × Option Int)) (k : String) (v : Option Int) :
    lookupDC (setDC dc k v) k = some v := by
  unfold setDC
  by_cases h : (dc.find? (fun p => p.1 == k)).isSome
  · simp only [h, if_true]
    rw [lookupDC_map_replace, if_pos h]
  · simp only [h, Bool.false_eq_true, if_false]
    exact lookupDC_append_absent dc k v (Option.not_isSome_iff_eq_none.mp h)

/-- `shouldRetryAfter` on a response without a `Retry-After` header: falsy
return, state untouched. -/
theorem sra_noheader (env : Env) (now : Int) (t : CrawlTask) (res : Response) (st : RunState)
    (h : headerLookup res.headers "retry-after" = none) :
    shouldRetryAfter env now t res st = (some 0, st) := by
  simp only [shouldRetryAfter, h]

/-- `shouldRetryAfter` on a non-429 response: falsy return, state
untouched. -/
theorem sra_not429 (env : Env) (now : Int) (t : CrawlTask) (res : Response) (st : RunState)
    (h : res.status ≠ 429) :
    shouldRetryAfter env now t res st = (some 0, st) := by
  unfold shouldRetryAfter
  cases hh : headerLookup res.headers "retry-after" with
  | none => rfl
  | some raw => simp [h]

/-- `shouldRetryAfter` on a 429 whose `Retry-After` computes to a non-`NaN`
deadline, the host having no cached entry: the deadline is recorded and the
task re-enqueued with delay `d - now`. -/
theorem sra_429_parsed (env : Env) (now : Int) (t : CrawlTask) (res : Response) (st : RunState)
    (raw : String) (d : Int)
    (hraw : headerLookup res.headers "retry-after" = some raw)
    (h429 : res.status = 429) (hne : raw ≠ "")
    (hp : computeRetryAfter env now raw = some d)
    (hdc : lookupDC st.delayCache t.url.host = none) (hd : d ≠ 0) :
    shouldRetryAfter env now t res st =
      (some d,
        { st with delayCache := setDC st.delayCache t.url.host (some d),
                  queue := st.queue ++ [(t, d - now)] }) := by
  simp only [shouldRetryAfter, hraw, hp, hdc]
  rw [if_neg (by simp [h429, hne])]
  simp [jsTruthy, hd]

/-- `shouldRetryAfter` on a 429 whose `Retry-After` fails both parses
(`NaN` deadline), the host having no cached entry: a `NaN` entry is still
recorded, no re-enqueue happens, and the falsy return lets the caller
continue. -/
theorem sra_429_nan_absent (env : Env) (now : Int) (t : CrawlTask) (res : Response) (st : RunState)
    (raw : String)
    (hraw : headerLookup res.headers "retry-after" = some raw)
    (h429 : res.status = 429) (hne : raw ≠ "")
    (hp : computeRetryAfter env now raw = none)
    (hdc : lookupDC st.delayCache t.url.host = none) :
    shouldRetryAfter env now t res st =
      (none, { st with delayCache := setDC st.delayCache t.url.host none }) := by
  simp only [shouldRetryAfter, hraw, hp, hdc]
  rw [if_neg (by simp [h429, hne])]
  simp [jsTruthy]

/-- `shouldRetryAfter` on a 429 whose `Retry-After` fails both parses when
the host already has an entry: the entry is kept (the JS `>` against `NaN`
is false) and the state is untouched. -/
theorem sra_429_nan_present (env : Env) (now : Int) (t : CrawlTask) (res : Response) (st : RunState)
    (raw : String) (cur : Option Int)
    (hraw : headerLookup res.headers "retry-after" = some raw)
    (h429 : res.status = 429) (hne : raw ≠ "")
    (hp : computeRetryAfter env now raw = none)
    (hdc : lookupDC st.delayCache t.url.host = some cur) :
    shouldRetryAfter env now t res st = (none, st) := by
  simp only [shouldRetryAfter, hraw, hp, hdc]
  rw [if_neg (by simp [h429, hne])]
  simp [jsGt, jsTruthy]

/-- General effect of `shouldRetryAfter` on the state: results, cache,
events and probes are untouched; the queue is extended with the task itself
exactly when the returned value is truthy. -/
theorem sra_state (env : Env) (now : Int) (t : CrawlTask) (res : Response) (st : RunState) :
    (shouldRetryAfter env now t res st).2.results = st.results ∧
    (shouldRetryAfter env now t res st).2.cache = st.cache ∧
    (shouldRetryAfter env now t res st).2.events = st.events ∧
    (shouldRetryAfter env now t res st).2.probes = st.probes ∧
    ∃ d, (shouldRetryAfter env now t res st).2.queue =
      if jsTruthy (shouldRetryAfter env now t res st).1 then st.queue ++ [(t, d)]
      else st.queue := by
  unfold shouldRetryAfter
  split
  · exact ⟨rfl, rfl, rfl, rfl, 0, by simp [jsTruthy]⟩
  · rename_i raw heq
    split
    · exact ⟨rfl, rfl, rfl, rfl, 0, by simp [jsTruthy]⟩
    · by_cases ht : jsTruthy (computeRetryAfter env now raw) = true
      · refine ⟨?_, ?_, ?_, ?_, (computeRetryAfter env now raw).getD 0 - now, ?_⟩ <;>
          simp [ht]
      · refine ⟨?_, ?_, ?_, ?_, 0, ?_⟩ <;> simp [ht]

/-- `charsPrefix` decides the prefix decomposition. -/
theorem charsPrefix_iff (need hay : List Char) :
    charsPrefix need hay = true ↔ ∃ b, hay = need ++ b := by
  induction need generalizing hay with
  | nil => simp [charsPrefix]
  | cons a as ih =>
    cases hay with
    | nil => simp [charsPrefix]
    | cons b bs =>
      simp only [charsPrefix, Bool.and_eq_true, beq_iff_eq, ih, List.cons_append,
        List.cons.injEq]
      constructor
      · rintro ⟨rfl, c, rfl⟩
        exact ⟨c, rfl, rfl⟩
      · rintro ⟨c, rfl, rfl⟩
        exact ⟨rfl, c, rfl⟩

/-- `charsContains` decides the infix decomposition. -/
theorem charsContains_iff (hay need : List Char) :
    charsContains hay need = true ↔ ∃ a b, hay = a ++ need ++ b := by
  induction hay with
  | nil =>
    simp only [charsContains, charsPrefix_iff]
    constructor
    · rintro ⟨b, hb⟩
      rcases List.append_eq_nil.mp hb.symm with ⟨h1, h2⟩
      exact ⟨[], [], by simp [h1, h2]⟩
    · rintro ⟨a, b, hab⟩
      rcases List.append_eq_nil.mp (List.append_eq_nil.mp hab.symm).1 with ⟨h1, h2⟩
      exact ⟨[], by simp [h2]⟩
  | cons h t ih =>
    simp only [charsContains, Bool.or_eq_true, charsPrefix_iff, ih]
    constructor
    · rintro (⟨b, hb⟩ | ⟨a, b, hab⟩)
      · exact ⟨[], b, by simp [hb]⟩
      · exact ⟨h :: a, b, by simp [hab]⟩
    · rintro ⟨a, b, hab⟩
      cases a with
      | nil => exact Or.inl ⟨b, by simpa using hab⟩
      | cons x xs =>
        simp only [List.cons_append, List.cons.injEq] at hab
        exact Or.inr ⟨xs, b, hab.2⟩

/-- A response with no `content-type` header is never classified as HTML. -/
theorem isHtml_no_ct (r : Response)
    (h : headerLookup r.headers "content-type" = none) : isHtml r = false := by
  simp only [isHtml, h]
  decide

/-- Pushing a result adds a `link` event, never a `pagestart` event. -/
theorem pagestarts_push (st : RunState) (r : LinkResult) :
    pagestarts (pushResult st r) = pagestarts st := by
  simp [pagestarts, pushResult, List.filter_append]

/-- `pagestarts` only reads the event log. -/
theorem pagestarts_logProbe (st : RunState) (u : String) (m : Method) (rt : RespType) :
    pagestarts (logProbe st u m rt) = pagestarts st := rfl

/-- `childStep` only ever appends to the result list. -/
theorem childStep_results_mono (env : Env) (opts : CheckOpts) (ph rp : String)
    (st : RunState) (pl : ParsedLink) :
    ∃ suf, (childStep env opts ph rp st pl).results = st.results ++ suf := by
  unfold childStep
  split
  · exact ⟨_, rfl⟩
  · dsimp only
    split
    · exact ⟨[], by simp⟩
    · exact ⟨[], by simp⟩

/-- The child-link fold only ever appends to the result list. -/
theorem childFold_results_mono (env : Env) (opts : CheckOpts) (ph rp : String)
    (ls : List ParsedLink) (st : RunState) :
    ∃ suf, (ls.foldl (childStep env opts ph rp) st).results = st.results ++ suf := by
  induction ls generalizing st with
  | nil => exact ⟨[], by simp⟩
  | cons pl tl ih =>
    simp only [List.foldl_cons]
    obtain ⟨s1, h1⟩ := childStep_results_mono env opts ph rp st pl
    obtain ⟨s2, h2⟩ := ih (childStep env opts ph rp st pl)
    exact ⟨s1 ++ s2, by rw [h2, h1, List.append_assoc]⟩

/-- When the response is absent or not HTML, `finish` only pushes the main
result: no `pagestart` event, queue and cache untouched. -/
theorem finish_no_html (env : Env) (opts : CheckOpts) (t : CrawlTask) (st : RunState)
    (res : Option Response) (fl : List FailureEntry)
    (hres : ∀ r, res = some r → isHtml r = false) :
    pagestarts (finish env opts t st res fl) = pagestarts st ∧
    (finish env opts t st res fl).queue = st.queue ∧
    (finish env opts t st res fl).cache = st.cache := by
  unfold finish
  simp only []
  have hh : (t.crawl && isHtmlOf res) = false := by
    cases res with
    | none => simp [isHtmlOf]
    | some r => simp [isHtmlOf, hres r rfl]
  rw [hh]
  simp [pagestarts_push]

/-- States with the same event log have the same `pagestart` events. -/
theorem pagestarts_eq_of_events (st st' : RunState) (h : st'.events = st.events) :
    pagestarts st' = pagestarts st := by
  simp [pagestarts, h]

/-- `ladder3Get` under content-type-free responses: no `pagestart` event is
added, and the only possible queue addition is the task itself. -/
theorem ladder3Get_no_ct (env : Env) (opts : CheckOpts) (now : Int) (t : CrawlTask)
    (st : RunState) (res : Option Response) (fl : List FailureEntry)
    (hct : ∀ m rt r, env.request t.url.href m rt = some r →
      headerLookup r.headers "content-type" = none)
    (hres : ∀ r, res = some r → isHtml r = false) :
    pagestarts (ladder3Get env opts now t st res fl) = pagestarts st ∧
    (∀ e ∈ (ladder3Get env opts now t st res fl).queue, e ∈ st.queue ∨ e.1 = t) := by
  unfold ladder3Get
  simp only []
  cases hreq : env.request t.url.href Method.GET RespType.text with
  | none =>
    obtain ⟨h1, h2, h3⟩ := finish_no_html env opts t
      (logProbe st t.url.href Method.GET RespType.text) res (fl ++ [FailureEntry.err]) hres
    refine ⟨by rw [h1]; exact pagestarts_eq_of_events st _ rfl, ?_⟩
    intro e he
    rw [h2, logProbe_queue] at he
    exact Or.inl he
  | some r3 =>
    simp only []
    obtain ⟨q1, q2, q3, q4, d, hq⟩ := sra_state env now t r3
      (logProbe st t.url.href Method.GET RespType.text)
    by_cases ht : jsTruthy (shouldRetryAfter env now t r3
        (logProbe st t.url.href Method.GET RespType.text)).1 = true
    · rw [if_pos ht]
      refine ⟨pagestarts_eq_of_events st _ (by rw [q3, logProbe_events]), ?_⟩
      intro e he
      rw [hq, if_pos ht, logProbe_queue] at he
      rcases List.mem_append.mp he with h | h
      · exact Or.inl h
      · simp only [List.mem_singleton] at h
        exact Or.inr (by rw [h])
    · rw [if_neg ht]
      have hr3 : isHtml r3 = false :=
        isHtml_no_ct r3 (hct Method.GET RespType.text r3 hreq)
      obtain ⟨h1, h2, h3⟩ := finish_no_html env opts t
        (shouldRetryAfter env now t r3 (logProbe st t.url.href Method.GET RespType.text)).2
        (some r3) fl (fun r hr => by cases hr; exact hr3)
      refine ⟨by rw [h1]; exact pagestarts_eq_of_events st _ (by rw [q3, logProbe_events]), ?_⟩
      intro e he
      rw [h2, hq, if_neg ht, logProbe_queue] at he
      exact Or.inl he

/-- `ladder3` under content-type-free responses: no `pagestart` event is
added, and the only possible queue addition is the task itself. -/
theorem ladder3_no_ct (env : Env) (opts : CheckOpts) (now : Int) (t : CrawlTask)
    (st : RunState) (res : Option Response) (fl : List FailureEntry)
    (hct : ∀ m rt r, env.request t.url.href m rt = some r →
      headerLookup r.headers "content-type" = none)
    (hres : ∀ r, res = some r → isHtml r = false) :
    pagestarts (ladder3 env opts now t st res fl) = pagestarts st ∧
    (∀ e ∈ (ladder3 env opts now t st res fl).queue, e ∈ st.queue ∨ e.1 = t) := by
  unfold ladder3
  split
  · exact ladder3Get_no_ct env opts now t st res fl hct hres
  · obtain ⟨h1, h2, h3⟩ := finish_no_html env opts t st res fl hres
    refine ⟨by rw [h1], ?_⟩
    intro e he
    rw [h2] at he
    exact Or.inl he

/-- Chained form of `ladder3_no_ct`: starting from a state whose events
match `st0` and whose queue extends `st0` only by the task itself. -/
theorem ladder3_no_ct_chain (env : Env) (opts : CheckOpts) (now : Int) (t : CrawlTask)
    (st0 st : RunState) (res : Option Response) (fl : List FailureEntry)
    (hev : st.events = st0.events)
    (hqu : ∀ e ∈ st.queue, e ∈ st0.queue ∨ e.1 = t)
    (hct : ∀ m rt r, env.request t.url.href m rt = some r →
      headerLookup r.headers "content-type" = none)
    (hres : ∀ r, res = some r → isHtml r = false) :
    pagestarts (ladder3 env opts now t st res fl) = pagestarts st0 ∧
    (∀ e ∈ (ladder3 env opts now t st res fl).queue, e ∈ st0.queue ∨ e.1 = t) := by
  obtain ⟨h1, h2⟩ := ladder3_no_ct env opts now t st res fl hct hres
  refine ⟨by rw [h1]; exact pagestarts_eq_of_events st0 st hev, ?_⟩
  intro e he
  rcases h2 e he with h | h
  · exact hqu e h
  · exact Or.inr h

/-- The probe phase under content-type-free responses: no `pagestart`
event, and the only possible queue addition is the task itself. -/
theorem probePhase_no_ct (env : Env) (opts : CheckOpts) (now : Int) (t : CrawlTask)
    (st : RunState)
    (hct : ∀ m rt r, env.request t.url.href m rt = some r →
      headerLookup r.headers "content-type" = none) :
    pagestarts (probePhase env opts now t st) = pagestarts st ∧
    (∀ e ∈ (probePhase env opts now t st).queue, e ∈ st.queue ∨ e.1 = t) := by
  unfold probePhase
  simp only []
  generalize (if t.crawl = true then Method.GET else Method.HEAD) = m1
  generalize (if t.crawl = true then RespType.text else RespType.stream) = rt1
  cases hreq : env.request t.url.href m1 rt1 with
  | none =>
    exact ladder3_no_ct_chain env opts now t st _ none [FailureEntry.err]
      (logProbe_events st _ _ _) (fun e he => Or.inl (by rwa [logProbe_queue] at he))
      hct (fun r hr => nomatch hr)
  | some r1 =>
    simp only []
    obtain ⟨q1, q2, q3, q4, d, hq⟩ := sra_state env now t r1 (logProbe st t.url.href m1 rt1)
    have hr1 : isHtml r1 = false := isHtml_no_ct r1 (hct _ _ r1 hreq)
    have hev1 : (shouldRetryAfter env now t r1 (logProbe st t.url.href m1 rt1)).2.events
        = st.events := by rw [q3, logProbe_events]
    have hqu1 : ∀ e ∈ (shouldRetryAfter env now t r1 (logProbe st t.url.href m1 rt1)).2.queue,
        e ∈ st.queue ∨ e.1 = t := by
      intro e he
      rw [hq] at he
      split at he
      · rw [logProbe_queue] at he
        rcases List.mem_append.mp he with h | h
        · exact Or.inl h
        · simp only [List.mem_singleton] at h
          exact Or.inr (by rw [h])
      · exact Or.inl (by rwa [logProbe_queue] at he)
    by_cases ht1 : jsTruthy (shouldRetryAfter env now t r1
        (logProbe st t.url.href m1 rt1)).1 = true
    · rw [if_pos ht1]
      exact ⟨pagestarts_eq_of_events st _ hev1, hqu1⟩
    · rw [if_neg ht1]
      by_cases h405 : r1.status = 405
      · rw [if_pos h405]
        cases hreq2 : env.request t.url.href Method.GET RespType.stream with
        | none =>
          exact ladder3_no_ct_chain env opts now t st _ (some r1) [FailureEntry.err]
            (by rw [logProbe_events]; exact hev1)
            (fun e he => hqu1 e (by rwa [logProbe_queue] at he))
            hct (fun r hr => by cases hr; exact hr1)
        | some r2 =>
          simp only []
          obtain ⟨p1, p2, p3, p4, d2, hq2⟩ := sra_state env now t r2
            (logProbe (shouldRetryAfter env now t r1 (logProbe st t.url.href m1 rt1)).2
              t.url.href Method.GET RespType.stream)
          have hr2 : isHtml r2 = false := isHtml_no_ct r2 (hct _ _ r2 hreq2)
          have hev2 : (shouldRetryAfter env now t r2
              (logProbe (shouldRetryAfter env now t r1 (logProbe st t.url.href m1 rt1)).2
                t.url.href Method.GET RespType.stream)).2.events = st.events := by
            rw [p3, logProbe_events]; exact hev1
          have hqu2 : ∀ e ∈ (shouldRetryAfter env now t r2
              (logProbe (shouldRetryAfter env now t r1 (logProbe st t.url.href m1 rt1)).2
                t.url.href Method.GET RespType.stream)).2.queue,
              e ∈ st.queue ∨ e.1 = t := by
            intro e he
            rw [hq2] at he
            split at he
            · rw [logProbe_queue] at he
              rcases List.mem_append.mp he with h | h
              · exact hqu1 e h
              · simp only [List.mem_singleton] at h
                exact Or.inr (by rw [h])
            · exact hqu1 e (by rwa [logProbe_queue] at he)
          by_cases ht2 : jsTruthy (shouldRetryAfter env now t r2
              (logProbe (shouldRetryAfter env now t r1 (logProbe st t.url.href m1 rt1)).2
                t.url.href Method.GET RespType.stream)).1 = true
          · rw [if_pos ht2]
            exact ⟨pagestarts_eq_of_events st _ hev2, hqu2⟩
          · rw [if_neg ht2]
            exact ladder3_no_ct_chain env opts now t st _ (some r2) []
              hev2 hqu2 hct (fun r hr => by cases hr; exact hr2)
      · rw [if_neg h405]
        exact ladder3_no_ct_chain env opts now t st _ (some r1) []
          hev1 hqu1 hct (fun r hr => by cases hr; exact hr1)

/-- The delay gate under content-type-free responses: no `pagestart` event,
and the only possible queue addition is the task itself. -/
theorem delayPhase_no_ct (env : Env) (opts : CheckOpts) (now : Int) (t : CrawlTask)
    (st : RunState)
    (hct : ∀ m rt r, env.request t.url.href m rt = some r →
      headerLookup r.headers "content-type" = none) :
    pagestarts (delayPhase env opts now t st) = pagestarts st ∧
    (∀ e ∈ (delayPhase env opts now t st).queue, e ∈ st.queue ∨ e.1 = t) := by
  unfold delayPhase
  cases hdc : lookupDC st.delayCache t.url.host with
  | none => exact probePhase_no_ct env opts now t st hct
  | some tv =>
    simp only []
    by_cases hgt : jsGt tv (some now) = true
    · rw [if_pos hgt]
      refine ⟨rfl, ?_⟩
      intro e he
      rcases List.mem_append.mp he with h | h
      · exact Or.inl h
      · simp only [List.mem_singleton] at h
        exact Or.inr (by rw [h])
    · rw [if_neg hgt]
      obtain ⟨h1, h2⟩ := probePhase_no_ct env opts now t
        { st with delayCache := removeDC st.delayCache t.url.host } hct
      exact ⟨h1, h2⟩

/-- Translation of the claim: under responses that carry no `content-type`
header at all, one crawl step emits no `pagestart` event and enqueues
nothing but (possibly) the task itself — no child link is extracted or
enqueued. -/
theorem crawlStep_no_ct (env : Env) (opts : CheckOpts) (now : Int) (t : CrawlTask)
    (st : RunState)
    (hct : ∀ m rt r, env.request t.url.href m rt = some r →
      headerLookup r.headers "content-type" = none) :
    pagestarts (crawlStep env opts now t st) = pagestarts st ∧
    (∀ e ∈ (crawlStep env opts now t st).queue, e ∈ st.queue ∨ e.1 = t) := by
  unfold crawlStep
  split
  · exact ⟨pagestarts_push st _, fun e he => Or.inl (by rwa [pushResult_queue] at he)⟩
  · split
    · exact ⟨pagestarts_push st _, fun e he => Or.inl (by rwa [pushResult_queue] at he)⟩
    · exact delayPhase_no_ct env opts now t st hct

/-- C10: for every probe whose responses carry no `Content-Type` header at
all, `isHtml` returns false, so even a `crawl=true` task fires no
`pagestart` event and extracts/enqueues no child link from the body: the
only task a step may enqueue is itself (delay-cache or 429 reschedule). -/
theorem c10_no_content_type_no_recurse (env : Env) (opts : CheckOpts) (now : Int)
    (t : CrawlTask) (st : RunState)
    (_hcrawl : t.crawl = true)
    (hct : ∀ m rt r, env.request t.url.href m rt = some r →
      headerLookup r.headers "content-type" = none) :
    (∀ r, env.request t.url.href Method.GET RespType.text = some r → isHtml r = false) ∧
    pagestarts (crawlStep env opts now t st) = pagestarts st ∧
    (∀ e ∈ (crawlStep env opts now t st).queue, e ∈ st.queue ∨ e.1 = t) :=
  ⟨fun r hr => isHtml_no_ct r (hct _ _ r hr),
   (crawlStep_no_ct env opts now t st hct).1,
   (crawlStep_no_ct env opts now t st hct).2⟩

/-- Witness for C10 at a concrete crawling task and header-free 200
responses: the step emits no `pagestart` and the response is not HTML. -/
theorem c10_no_content_type_no_recurse_witness :
    pagestarts (crawlStep envW optsPlain 0 taskACrawl emptyState) = pagestarts emptyState ∧
    isHtml respOk = false := by
  have h := c10_no_content_type_no_recurse envW optsPlain 0 taskACrawl emptyState rfl
    (fun m rt r hr => by
      simp only [envW] at hr
      cases hr
      rfl)
  exact ⟨h.2.1, h.1 respOk rfl⟩

/-- C6 counterexample: the `Content-Type` value `Text/HTML` contains
`text/html` under case-insensitive matching, so the claim classifies it as
HTML, but `isHtml` matches case-sensitively and returns `false`. -/
theorem c6_isHtml_counterexample :
    isHtml { status := 200, headers := [("content-type", "Text/HTML")], data := "" } = false := by
  decide

/-- C6 (amended): `isHtml` returns true exactly when the `Content-Type`
header (defaulted to the empty string when absent) contains `text/html` or
`application/xhtml+xml` as a case-SENSITIVE substring. -/
theorem c6_isHtml_substring (res : Response) :
    isHtml res = true ↔
      (∃ a b, ((headerLookup res.headers "content-type").getD "").toList
          = a ++ "text/html".toList ++ b) ∨
      (∃ a b, ((headerLookup res.headers "content-type").getD "").toList
          = a ++ "application/xhtml+xml".toList ++ b) := by
  simp [isHtml, containsSub, charsContains_iff]

/-- Witness for C6 at concrete headers: a lowercase `text/html;
charset=utf-8` is classified as HTML via the explicit decomposition. -/
theorem c6_isHtml_substring_witness :
    isHtml { status := 200, headers := [("content-type", "text/html; charset=utf-8")],
             data := "" } = true :=
  (c6_isHtml_substring _).mpr
    (Or.inl ⟨[], "; charset=utf-8".toList, by decide⟩)

/-- C9 (code-bug evaluation): on a document whose first href `%%bad` fails
URL resolution and whose second href resolves to `http://h/x` with fragment
`#z`, `getLinks` of src/links.ts returns bare strings — the failing href is
returned as the original string `"%%bad"`, not as a `{originalHref,
url: none}` pair, and the resolved one has its fragment cleared.  The
caller `crawl` (src/index.ts lines 419-433) reads `result.url` and
`result.link` off each element, which plain strings do not carry. -/
theorem c9_getLinks_failing_eval :
    getLinks envLinks "doc" "http://h/" = ["%%bad", "http://h/x"] := by
  decide

/-- C3: the result of `check` has `passed = true` exactly when the number
of BROKEN results is zero (equivalently: no result is BROKEN). -/
theorem c3_passed_iff_no_broken (env : Env) (opts : CheckOpts) (paths : List String)
    (fuel : Nat) (t0 : Int) (cr : CrawlResult)
    (h : runCheck env opts paths fuel t0 = some cr) :
    (cr.passed = true ↔
      (cr.links.filter (fun x => x.state == LinkState.BROKEN)).length = 0) ∧
    (cr.passed = true ↔ ∀ r ∈ cr.links, r.state ≠ LinkState.BROKEN) := by
  unfold runCheck at h
  cases hrs : runStates env opts paths fuel t0 with
  | none => rw [hrs] at h; cases h
  | some st =>
    rw [hrs] at h
    simp only [Option.map_some'] at h
    cases h
    constructor
    · simp [mkCrawlResult]
    · simp [mkCrawlResult, List.length_eq_zero, List.filter_eq_nil_iff]

/-- Witness for C3 on a one-page run that passes. -/
theorem c3_passed_iff_no_broken_witness :
    (({ passed := true,
        links := [{ url := "http://h/a", status := some 200, state := LinkState.OK,
                    parent := none, failureDetails := some [] }] } : CrawlResult).passed = true ↔
      ((({ passed := true,
           links := [{ url := "http://h/a", status := some 200, state := LinkState.OK,
                       parent := none, failureDetails := some [] }] } : CrawlResult)).links.filter
          (fun x => x.state == LinkState.BROKEN)).length = 0) :=
  (c3_passed_iff_no_broken envW optsPlain ["http://h/a"] 2 0
    { passed := true,
      links := [{ url := "http://h/a", status := some 200, state := LinkState.OK,
                  parent := none, failureDetails := some [] }] } (by decide)).1

@[simp] theorem childStep_probes (env : Env) (opts : CheckOpts) (ph rp : String)
    (st : RunState) (pl : ParsedLink) :
    (childStep env opts ph rp st pl).probes = st.probes := by
  unfold childStep
  split
  · rfl
  · dsimp only
    split
    · rfl
    · rfl

theorem childFold_probes (env : Env) (opts : CheckOpts) (ph rp : String)
    (ls : List ParsedLink) (st : RunState) :
    (ls.foldl (childStep env opts ph rp) st).probes = st.probes := by
  induction ls generalizing st with
  | nil => rfl
  | cons pl tl ih => simp [List.foldl_cons, ih]

/-- `finish` pushes the main result first (children may follow) and issues
no request. -/
theorem finish_results_probes (env : Env) (opts : CheckOpts) (t : CrawlTask)
    (st : RunState) (res : Option Response) (fl : List FailureEntry) :
    (∃ rest, (finish env opts t st res fl).results =
      st.results ++ (mainResult t res fl :: rest)) ∧
    (finish env opts t st res fl).probes = st.probes := by
  unfold finish
  simp only []
  split
  · obtain ⟨suf, hsuf⟩ := childFold_results_mono env opts t.url.href t.rootPath
      (getLinksP env (dataOf res) t.url.href)
      { pushResult st (mainResult t res fl) with
        events := (pushResult st (mainResult t res fl)).events ++ [Event.pagestart t.url.href] }
    refine ⟨⟨suf, ?_⟩, ?_⟩
    · rw [hsuf]
      simp
    · rw [childFold_probes]
      rfl
  · exact ⟨⟨[], by simp⟩, rfl⟩

/-- C7 (amended): a URL caught by any of the three skip gates produces
exactly one appended result — state SKIPPED, the task's URL and parent, and
status 0 for the scheme gate but NO status at all for the predicate/regex
gates — fires the matching `link` event, issues no request, enqueues
nothing and touches neither cache. -/
theorem c7_skip_gates (env : Env) (opts : CheckOpts) (now : Int) (t : CrawlTask)
    (st : RunState)
    (hgate : ¬(t.url.protocol = "http:" ∨ t.url.protocol = "https:") ∨
      skipMatch env opts t.url.href = true) :
    (crawlStep env opts now t st).results = st.results ++
      [{ url := t.url.href,
         status := if t.url.protocol = "http:" ∨ t.url.protocol = "https:" then none
                   else some 0,
         state := LinkState.SKIPPED, parent := t.parent, failureDetails := none }] ∧
    (crawlStep env opts now t st).events = st.events ++
      [Event.link
        { url := t.url.href,
          status := if t.url.protocol = "http:" ∨ t.url.protocol = "https:" then none
                    else some 0,
          state := LinkState.SKIPPED, parent := t.parent, failureDetails := none }] ∧
    (crawlStep env opts now t st).queue = st.queue ∧
    (crawlStep env opts now t st).probes = st.probes ∧
    (crawlStep env opts now t st).cache = st.cache ∧
    (crawlStep env opts now t st).delayCache = st.delayCache := by
  unfold crawlStep
  by_cases hp : t.url.protocol ≠ "http:" ∧ t.url.protocol ≠ "https:"
  · rw [if_pos hp]
    have hp' : ¬(t.url.protocol = "http:" ∨ t.url.protocol = "https:") := by
      rintro (h | h)
      · exact hp.1 h
      · exact hp.2 h
    rw [if_neg hp']
    exact ⟨rfl, rfl, rfl, rfl, rfl, rfl⟩
  · rw [if_neg hp]
    rw [not_and_or, not_not, not_not] at hp
    have hsm : skipMatch env opts t.url.href = true := by
      rcases hgate with h | h
      · exact absurd hp h
      · exact h
    rw [if_pos hsm, if_pos hp]
    exact ⟨rfl, rfl, rfl, rfl, rfl, rfl⟩

/-- Witness for C7: a regex-gate skip at a concrete input, showing the
appended SKIPPED result carries no status. -/
theorem c7_skip_gates_witness :
    (crawlStep envRegexAll optsSkipX 0 taskA emptyState).results = emptyState.results ++
      [{ url := taskA.url.href, status := none, state := LinkState.SKIPPED,
         parent := taskA.parent, failureDetails := none }] ∧
    (crawlStep envRegexAll optsSkipX 0 taskA emptyState).queue = emptyState.queue := by
  have h := c7_skip_gates envRegexAll optsSkipX 0 taskA emptyState (Or.inr (by decide))
  exact ⟨h.1, h.2.2.1⟩

/-- C7 counterexample: the claim promises status 0 for every skipped URL,
but a regex-gate skip appends a result whose `status` field is absent. -/
theorem c7_skip_status_counterexample :
    (crawlStep envRegexAll optsSkipX 0 taskA emptyState).results.map
      (fun r => (r.state, r.status)) = [(LinkState.SKIPPED, none)] ∧
    (crawlStep envRegexAll optsSkipX 0 taskA emptyState).results.map
      (fun r => r.status) ≠ [some 0] := by
  decide

/-- C8 (amended): a first attempt answered with HTTP 405 triggers a second
attempt with method `GET` whose `responseType` is ALWAYS `stream`,
regardless of whether the task wants a body, and the second attempt's
response replaces the first in the emitted result. -/
theorem c8_405_get_fallback (env : Env) (opts : CheckOpts) (now : Int) (t : CrawlTask)
    (st : RunState) (r1 r2 : Response)
    (hproto : t.url.protocol = "http:")
    (hskip : skipMatch env opts t.url.href = false)
    (hdc : lookupDC st.delayCache t.url.host = none)
    (hreq1 : env.request t.url.href (if t.crawl then Method.GET else Method.HEAD)
        (if t.crawl then RespType.text else RespType.stream) = some r1)
    (h405 : r1.status = 405)
    (hreq2 : env.request t.url.href Method.GET RespType.stream = some r2)
    (h200 : r2.status = 200) :
    (crawlStep env opts now t st).probes = st.probes ++
      [{ url := t.url.href, method := if t.crawl then Method.GET else Method.HEAD,
         responseType := if t.crawl then RespType.text else RespType.stream },
       { url := t.url.href, method := Method.GET, responseType := RespType.stream }] ∧
    ∃ rest, (crawlStep env opts now t st).results = st.results ++
      ({ url := t.url.href, status := some 200, state := LinkState.OK,
         parent := t.parent, failureDetails := some [] } :: rest) := by
  have hmain : mainResult t (some r2) [] =
      { url := t.url.href, status := some 200, state := LinkState.OK,
        parent := t.parent, failureDetails := some [] } := by
    simp [mainResult, statusOf, is2xx, h200]
  unfold crawlStep
  rw [if_neg (by rintro ⟨h1, h2⟩; exact h1 hproto)]
  rw [if_neg (by simp [hskip])]
  unfold delayPhase
  rw [hdc]
  simp only []
  unfold probePhase
  simp only []
  rw [hreq1]
  simp only []
  rw [sra_not429 env now t r1 _ (by rw [h405]; decide)]
  simp only []
  rw [if_neg (by simp [jsTruthy])]
  rw [if_pos h405]
  rw [hreq2]
  simp only []
  rw [sra_not429 env now t r2 _ (by rw [h200]; decide)]
  simp only []
  rw [if_neg (by simp [jsTruthy])]
  unfold ladder3
  rw [if_neg (by simp [non2xx, h200])]
  obtain ⟨⟨rest, hrest⟩, hprobes⟩ := finish_results_probes env opts t
    (logProbe (logProbe st t.url.href (if t.crawl then Method.GET else Method.HEAD)
        (if t.crawl then RespType.text else RespType.stream))
      t.url.href Method.GET RespType.stream) (some r2) []
  rw [hmain] at hrest
  constructor
  · rw [hprobes]
    simp [logProbe]
  · exact ⟨rest, by rw [hrest]; simp [logProbe]⟩

/-- Witness for C8 at a concrete crawling (`wantBody=true`) task whose
text-typed probes answer 405 and whose stream-typed probes answer 200. -/
theorem c8_405_get_fallback_witness :
    (crawlStep env405 optsPlain 0 taskACrawl emptyState).probes = emptyState.probes ++
      [{ url := taskACrawl.url.href, method := Method.GET, responseType := RespType.text },
       { url := taskACrawl.url.href, method := Method.GET, responseType := RespType.stream }] ∧
    ∃ rest, (crawlStep env405 optsPlain 0 taskACrawl emptyState).results =
      emptyState.results ++
      ({ url := taskACrawl.url.href, status := some 200, state := LinkState.OK,
         parent := taskACrawl.parent, failureDetails := some [] } :: rest) :=
  c8_405_get_fallback env405 optsPlain 0 taskACrawl emptyState resp405 respOk
    rfl (by decide) rfl rfl rfl rfl rfl

/-- C8 counterexample: the claim promises the 405 retry reads the body as
text when `wantBody=true`; at a crawling task the second request is issued
with `responseType` `stream`, not `text`. -/
theorem c8_405_responsetype_counterexample :
    (crawlStep env405 optsPlain 0 taskACrawl emptyState).probes.map
      (fun p => (p.method, p.responseType)) =
      [(Method.GET, RespType.text), (Method.GET, RespType.stream)] ∧
    (crawlStep env405 optsPlain 0 taskACrawl emptyState).probes.map
      (fun p => p.responseType) ≠ [RespType.text, RespType.text] := by
  decide

/-- C4 (amended): a probe answered 429 whose `Retry-After` computes to a
nonzero deadline `d`, when the delay cache has no entry for the host,
records `d` for the host, re-enqueues the same task with delay `d - now`,
and appends no LinkResult and fires no event for the attempt.  (With an
existing entry the larger deadline under the JS `>` comparison is kept.) -/
theorem c4_retry_after_reschedule (env : Env) (opts : CheckOpts) (now : Int) (t : CrawlTask)
    (st : RunState) (r : Response) (raw : String) (d : Int)
    (hproto : t.url.protocol = "http:")
    (hskip : skipMatch env opts t.url.href = false)
    (hdc : lookupDC st.delayCache t.url.host = none)
    (hreq : env.request t.url.href (if t.crawl then Method.GET else Method.HEAD)
        (if t.crawl then RespType.text else RespType.stream) = some r)
    (h429 : r.status = 429)
    (hraw : headerLookup r.headers "retry-after" = some raw)
    (hne : raw ≠ "")
    (hp : computeRetryAfter env now raw = some d)
    (hd : d ≠ 0) :
    (crawlStep env opts now t st).results = st.results ∧
    (crawlStep env opts now t st).events = st.events ∧
    (crawlStep env opts now t st).queue = st.queue ++ [(t, d - now)] ∧
    (crawlStep env opts now t st).delayCache = setDC st.delayCache t.url.host (some d) ∧
    lookupDC (crawlStep env opts now t st).delayCache t.url.host = some (some d) := by
  unfold crawlStep
  rw [if_neg (by rintro ⟨h1, _⟩; exact h1 hproto)]
  rw [if_neg (by simp [hskip])]
  unfold delayPhase
  rw [hdc]
  simp only []
  unfold probePhase
  simp only []
  rw [hreq]
  simp only []
  rw [sra_429_parsed env now t r _ raw d hraw h429 hne hp
    (by rw [logProbe_delayCache]; exact hdc) hd]
  simp only []
  rw [if_pos (by simp only [jsTruthy, bne_iff_ne, ne_eq]; exact hd)]
  refine ⟨by simp [logProbe], by simp [logProbe], by simp [logProbe], by simp [logProbe], ?_⟩
  show lookupDC (setDC (logProbe st t.url.href _ _).delayCache t.url.host (some d)) t.url.host
    = some (some d)
  rw [logProbe_delayCache]
  exact lookupDC_setDC_self st.delayCache t.url.host (some d)

/-- Witness for C4 at a concrete 429 with `Retry-After: 3` at time 7: the
deadline 3007 is recorded, the task re-enqueued with delay 3000, and no
result appended. -/
theorem c4_retry_after_reschedule_witness :
    (crawlStep env429int optsPlain 7 taskA emptyState).results = emptyState.results ∧
    (crawlStep env429int optsPlain 7 taskA emptyState).queue =
      emptyState.queue ++ [(taskA, 3000)] ∧
    lookupDC (crawlStep env429int optsPlain 7 taskA emptyState).delayCache taskA.url.host =
      some (some 3007) := by
  have h := c4_retry_after_reschedule env429int optsPlain 7 taskA emptyState
    (resp429 "3") "3" 3007 rfl (by decide) rfl rfl rfl rfl (by decide) (by decide) (by decide)
  refine ⟨h.1, ?_, h.2.2.2.2⟩
  rw [h.2.2.1]
  decide

/-- C4 counterexample: a probe attempt with status 429 and a parseable
`Retry-After: 5` (computed deadline 5000) does not get its deadline
recorded — the cache keeps the `NaN` entry left over from an earlier
unparseable header on the same host — even though the task is re-enqueued
with the computed delay 5000. -/
theorem c4_retry_after_counterexample :
    (crawlStep env429mix optsPlain 0 taskA emptyState).delayCache = [("h", none)] ∧
    lookupDC (crawlStep env429mix optsPlain 0 taskA emptyState).delayCache "h" ≠
      some (some 5000) ∧
    (crawlStep env429mix optsPlain 0 taskA emptyState).queue.map (fun e => e.2) = [5000] := by
  decide

/-- C5 (amended): a 429 whose `Retry-After` fails both parses (JS `Number`
and `Date` both give `NaN`) is treated as a terminal non-2xx result — a
BROKEN LinkResult with status 429 is emitted — but an entry for the host IS
recorded in the delay cache, with the `NaN` value (evicted at the next
delay-gate check); no re-enqueue happens. -/
theorem c5_unparseable_retry_after (env : Env) (opts : CheckOpts) (now : Int) (t : CrawlTask)
    (st : RunState) (r : Response) (raw : String)
    (hproto : t.url.protocol = "http:")
    (hskip : skipMatch env opts t.url.href = false)
    (hdc : lookupDC st.delayCache t.url.host = none)
    (hcrawl : t.crawl = false)
    (hreq1 : env.request t.url.href (if t.crawl then Method.GET else Method.HEAD)
        (if t.crawl then RespType.text else RespType.stream) = some r)
    (hreq2 : env.request t.url.href Method.GET RespType.text = some r)
    (h429 : r.status = 429)
    (hraw : headerLookup r.headers "retry-after" = some raw)
    (hne : raw ≠ "")
    (hp : computeRetryAfter env now raw = none) :
    (crawlStep env opts now t st).results = st.results ++
      [{ url := t.url.href, status := some 429, state := LinkState.BROKEN,
         parent := t.parent, failureDetails := some [FailureEntry.resp (some r)] }] ∧
    (crawlStep env opts now t st).delayCache = setDC st.delayCache t.url.host none ∧
    (crawlStep env opts now t st).queue = st.queue := by
  have hmain : mainResult t (some r) [] =
      { url := t.url.href, status := some 429, state := LinkState.BROKEN,
        parent := t.parent, failureDetails := some [FailureEntry.resp (some r)] } := by
    simp [mainResult, statusOf, is2xx, h429]
  unfold crawlStep
  rw [if_neg (by rintro ⟨h1, _⟩; exact h1 hproto)]
  rw [if_neg (by simp [hskip])]
  unfold delayPhase
  rw [hdc]
  simp only []
  unfold probePhase
  simp only []
  rw [hreq1]
  simp only []
  rw [sra_429_nan_absent env now t r _ raw hraw h429 hne hp
    (by rw [logProbe_delayCache]; exact hdc)]
  simp only []
  rw [if_neg (by simp [jsTruthy])]
  rw [if_neg (by rw [h429]; decide)]
  unfold ladder3
  rw [if_pos (by simp [non2xx, h429, hcrawl])]
  unfold ladder3Get
  simp only []
  rw [hreq2]
  simp only []
  rw [sra_429_nan_present env now t r _ raw none hraw h429 hne hp
    (by
      rw [logProbe_delayCache]
      show lookupDC ({ logProbe st t.url.href _ _ with
        delayCache := setDC (logProbe st t.url.href _ _).delayCache t.url.host none }).delayCache
        t.url.host = some none
      rw [logProbe_delayCache]
      exact lookupDC_setDC_self st.delayCache t.url.host none)]
  simp only []
  rw [if_neg (by simp [jsTruthy])]
  unfold finish
  simp only []
  rw [if_neg (by simp [hcrawl])]
  rw [hmain]
  refine ⟨by simp [logProbe], by simp [logProbe], by simp [logProbe]⟩

/-- Witness for C5 at a concrete 429 with `Retry-After: zzz` (both parses
fail): a BROKEN 429 result is emitted, a `NaN` entry is recorded for the
host, and nothing is re-enqueued. -/
theorem c5_unparseable_retry_after_witness :
    (crawlStep env429nan optsPlain 0 taskA emptyState).results = emptyState.results ++
      [{ url := taskA.url.href, status := some 429, state := LinkState.BROKEN,
         parent := taskA.parent,
         failureDetails := some [FailureEntry.resp (some (resp429 "zzz"))] }] ∧
    (crawlStep env429nan optsPlain 0 taskA emptyState).delayCache =
      setDC emptyState.delayCache taskA.url.host none ∧
    (crawlStep env429nan optsPlain 0 taskA emptyState).queue = emptyState.queue :=
  c5_unparseable_retry_after env429nan optsPlain 0 taskA emptyState (resp429 "zzz") "zzz"
    rfl (by decide) rfl rfl rfl rfl rfl rfl (by decide) rfl

/-- C5 counterexample: the claim promises that no entry for the host is
recorded when `Retry-After` fails both parses, but the delay cache ends up
holding a `NaN` entry for host `h` (while the attempt is indeed terminal:
one BROKEN result with status 429). -/
theorem c5_unparseable_counterexample :
    (crawlStep env429nan optsPlain 0 taskA emptyState).delayCache = [("h", none)] ∧
    (crawlStep env429nan optsPlain 0 taskA emptyState).delayCache ≠ [] ∧
    (crawlStep env429nan optsPlain 0 taskA emptyState).results.map
      (fun r => (r.url, r.status, r.state)) =
      [("http://h/a", some 429, LinkState.BROKEN)] := by
  decide

/-- The main result of a probe satisfies the OK-iff-2xx shape. -/
theorem shape_mainResult (t : CrawlTask) (res : Option Response) (fl : List FailureEntry) :
    Shape (mainResult t res fl) := by
  unfold Shape mainResult
  by_cases h2 : is2xx res = true
  · rw [if_pos h2]
    simp only [is2xx, Bool.and_eq_true, decide_eq_true_eq] at h2
    simp only [true_iff]
    exact ⟨statusOf res, rfl, h2.1, h2.2⟩
  · rw [if_neg h2]
    simp only [is2xx, Bool.and_eq_true, decide_eq_true_eq, not_and_or] at h2
    constructor
    · intro h; cases h
    · rintro ⟨s, hs, hlo, hhi⟩
      cases hs
      rcases h2 with h | h
      · exact absurd hlo (by simpa using h)
      · exact absurd hhi (by simpa using h)

/-- All results a list of results may satisfy the OK-iff-2xx shape. -/
def AllShape (rs : List LinkResult) : Prop := ∀ r ∈ rs, Shape r

/-- `childStep` only pushes BROKEN status-0 results, preserving the shape
invariant. -/
theorem childStep_shape (env : Env) (opts : CheckOpts) (ph rp : String)
    (st : RunState) (pl : ParsedLink) (h : AllShape st.results) :
    AllShape (childStep env opts ph rp st pl).results := by
  unfold childStep
  split
  · intro r hr
    rw [pushResult_results] at hr
    rcases List.mem_append.mp hr with hm | hm
    · exact h r hm
    · simp only [List.mem_singleton] at hm
      subst hm
      unfold Shape
      constructor
      · intro hc; cases hc
      · rintro ⟨s, hs, hlo, _⟩
        cases hs
        exact absurd hlo (by decide)
  · dsimp only
    split
    · exact h
    · exact h

/-- The child fold preserves the shape invariant. -/
theorem childFold_shape (env : Env) (opts : CheckOpts) (ph rp : String)
    (ls : List ParsedLink) (st : RunState) (h : AllShape st.results) :
    AllShape (ls.foldl (childStep env opts ph rp) st).results := by
  induction ls generalizing st with
  | nil => exact h
  | cons pl tl ih => exact ih _ (childStep_shape env opts ph rp st pl h)

/-- `finish` preserves the shape invariant. -/
theorem finish_shape (env : Env) (opts : CheckOpts) (t : CrawlTask) (st : RunState)
    (res : Option Response) (fl : List FailureEntry) (h : AllShape st.results) :
    AllShape (finish env opts t st res fl).results := by
  have hpush : AllShape (pushResult st (mainResult t res fl)).results := by
    intro r hr
    rw [pushResult_results] at hr
    rcases List.mem_append.mp hr with hm | hm
    · exact h r hm
    · simp only [List.mem_singleton] at hm
      subst hm
      exact shape_mainResult t res fl
  unfold finish
  simp only []
  split
  · refine childFold_shape env opts t.url.href t.rootPath _ _ ?_
    intro r hr
    exact hpush r hr
  · exact hpush

/-- `ladder3Get` preserves the shape invariant. -/
theorem ladder3Get_shape (env : Env) (opts : CheckOpts) (now : Int) (t : CrawlTask)
    (st : RunState) (res : Option Response) (fl : List FailureEntry)
    (h : AllShape st.results) :
    AllShape (ladder3Get env opts now t st res fl).results := by
  unfold ladder3Get
  simp only []
  cases hreq : env.request t.url.href Method.GET RespType.text with
  | none => exact finish_shape env opts t _ res _ (by simpa using h)
  | some r3 =>
    simp only []
    obtain ⟨q1, _, _, _, _, _⟩ := sra_state env now t r3
      (logProbe st t.url.href Method.GET RespType.text)
    split
    · intro r hr
      rw [q1, logProbe_results] at hr
      exact h r hr
    · refine finish_shape env opts t _ (some r3) fl ?_
      intro r hr
      rw [q1, logProbe_results] at hr
      exact h r hr

/-- `ladder3` preserves the shape invariant. -/
theorem ladder3_shape (env : Env) (opts : CheckOpts) (now : Int) (t : CrawlTask)
    (st : RunState) (res : Option Response) (fl : List FailureEntry)
    (h : AllShape st.results) :
    AllShape (ladder3 env opts now t st res fl).results := by
  unfold ladder3
  split
  · exact ladder3Get_shape env opts now t st res fl h
  · exact finish_shape env opts t st res fl h

/-- The probe phase preserves the shape invariant. -/
theorem probePhase_shape (env : Env) (opts : CheckOpts) (now : Int) (t : CrawlTask)
    (st : RunState) (h : AllShape st.results) :
    AllShape (probePhase env opts now t st).results := by
  unfold probePhase
  simp only []
  generalize (if t.crawl = true then Method.GET else Method.HEAD) = m1
  generalize (if t.crawl = true then RespType.text else RespType.stream) = rt1
  cases hreq : env.request t.url.href m1 rt1 with
  | none => exact ladder3_shape env opts now t _ none _ (by simpa using h)
  | some r1 =>
    simp only []
    obtain ⟨q1, _, _, _, _, _⟩ := sra_state env now t r1 (logProbe st t.url.href m1 rt1)
    have h1 : AllShape (shouldRetryAfter env now t r1
        (logProbe st t.url.href m1 rt1)).2.results := by
      intro r hr
      rw [q1, logProbe_results] at hr
      exact h r hr
    split
    · exact h1
    · split
      · cases hreq2 : env.request t.url.href Method.GET RespType.stream with
        | none => exact ladder3_shape env opts now t _ (some r1) _ (by simpa using h1)
        | some r2 =>
          simp only []
          obtain ⟨p1, _, _, _, _, _⟩ := sra_state env now t r2
            (logProbe (shouldRetryAfter env now t r1 (logProbe st t.url.href m1 rt1)).2
              t.url.href Method.GET RespType.stream)
          have h2 : AllShape (shouldRetryAfter env now t r2
              (logProbe (shouldRetryAfter env now t r1 (logProbe st t.url.href m1 rt1)).2
                t.url.href Method.GET RespType.stream)).2.results := by
            intro r hr
            rw [p1, logProbe_results] at hr
            exact h1 r hr
          split
          · exact h2
          · exact ladder3_shape env opts now t _ (some r2) [] h2
      · exact ladder3_shape env opts now t _ (some r1) [] h1

/-- One crawl step preserves the shape invariant. -/
theorem crawlStep_shape (env : Env) (opts : CheckOpts) (now : Int) (t : CrawlTask)
    (st : RunState) (h : AllShape st.results) :
    AllShape (crawlStep env opts now t st).results := by
  have hskipres : ∀ (os : Option Nat), os = some 0 ∨ os = none →
      Shape { url := t.url.href, status := os, state := LinkState.SKIPPED,
              parent := t.parent, failureDetails := none } := by
    rintro os (rfl | rfl)
    · unfold Shape
      constructor
      · intro hc; cases hc
      · rintro ⟨s, hs, hlo, _⟩
        cases hs
        exact absurd hlo (by decide)
    · unfold Shape
      constructor
      · intro hc; cases hc
      · rintro ⟨s, hs, _, _⟩
        cases hs
  unfold crawlStep
  split
  · intro r hr
    rw [pushResult_results] at hr
    rcases List.mem_append.mp hr with hm | hm
    · exact h r hm
    · simp only [List.mem_singleton] at hm
      subst hm
      exact hskipres (some 0) (Or.inl rfl)
  · split
    · intro r hr
      rw [pushResult_results] at hr
      rcases List.mem_append.mp hr with hm | hm
      · exact h r hm
      · simp only [List.mem_singleton] at hm
        subst hm
        exact hskipres none (Or.inr rfl)
    · unfold delayPhase
      split
      · split
        · exact h
        · exact probePhase_shape env opts now t _ h
      · exact probePhase_shape env opts now t st h

/-- The queue drain preserves the shape invariant. -/
theorem runLoop_shape (env : Env) (opts : CheckOpts) (fuel : Nat) (now : Int)
    (st st' : RunState) (h : AllShape st.results)
    (hrun : runLoop env opts fuel now st = some st') : AllShape st'.results := by
  induction fuel generalizing now st with
  | zero =>
    unfold runLoop at hrun
    cases hq : st.queue with
    | nil =>
      rw [hq] at hrun
      cases hrun
      exact h
    | cons td rest =>
      rw [hq] at hrun
      cases hrun
  | succ n ih =>
    unfold runLoop at hrun
    cases hq : st.queue with
    | nil =>
      rw [hq] at hrun
      cases hrun
      exact h
    | cons td rest =>
      obtain ⟨t, d⟩ := td
      rw [hq] at hrun
      exact ih (now + 1) (crawlStep env opts now t { st with queue := rest })
        (crawlStep_shape env opts now t { st with queue := rest } h) hrun

/-- The start loop never touches the result list. -/
theorem startFrom_results (env : Env) (ps : List String) (st st' : RunState)
    (h : startFrom env st ps = some st') : st'.results = st.results := by
  induction ps generalizing st with
  | nil =>
    unfold startFrom at h
    cases h
    rfl
  | cons p tl ih =>
    unfold startFrom addStart at h
    cases hp : env.parseUrl p with
    | none => rw [hp] at h; cases h
    | some u =>
      rw [hp] at h
      exact ih
        { st with
          cache := setAdd st.cache u.href
          queue := st.queue ++
            [({ url := u, crawl := true, parent := none, rootPath := p }, 0)] }
        h

/-- C2: every LinkResult produced by a run has state OK exactly when it
carries a status in [200, 300); in particular transport-failure results
(status 0) and results with no status field are never OK. -/
theorem c2_ok_iff_2xx (env : Env) (opts : CheckOpts) (paths : List String)
    (fuel : Nat) (t0 : Int) (st : RunState) (r : LinkResult)
    (hrun : runStates env opts paths fuel t0 = some st)
    (hmem : r ∈ st.results) :
    r.state = LinkState.OK ↔ ∃ s, r.status = some s ∧ 200 ≤ s ∧ s < 300 := by
  unfold runStates at hrun
  cases hss : startState env paths with
  | none => rw [hss] at hrun; cases hrun
  | some st0 =>
    rw [hss] at hrun
    have h0 : AllShape st0.results := by
      have he := startFrom_results env paths emptyState st0 hss
      intro x hx
      rw [he] at hx
      cases hx
    exact runLoop_shape env opts fuel t0 st0 st h0 hrun r hmem

/-- Witness for C2: the single result of a concrete one-page run satisfies
the OK-iff-2xx equivalence. -/
theorem c2_ok_iff_2xx_witness :
    ({ url := "http://h/a", status := some 200, state := LinkState.OK,
       parent := none, failureDetails := some [] } : LinkResult).state = LinkState.OK ↔
    ∃ s, ({ url := "http://h/a", status := some 200, state := LinkState.OK,
            parent := none, failureDetails := some [] } : LinkResult).status = some s ∧
      200 ≤ s ∧ s < 300 :=
  c2_ok_iff_2xx envW optsPlain ["http://h/a"] 2 0
    { results := [{ url := "http://h/a", status := some 200, state := LinkState.OK,
                    parent := none, failureDetails := some [] }],
      cache := ["http://h/a"], delayCache := [], queue := [],
      events := [Event.link { url := "http://h/a", status := some 200,
                              state := LinkState.OK, parent := none,
                              failureDetails := some [] }],
      probes := [{ url := "http://h/a", method := Method.GET,
                   responseType := RespType.text }] }
    { url := "http://h/a", status := some 200, state := LinkState.OK,
      parent := none, failureDetails := some [] }
    (by decide) (by decide)

theorem urlCount_append (rs : List LinkResult) (r : LinkResult) (u : String) :
    urlCount (rs ++ [r]) u = urlCount rs u + (if r.url = u then 1 else 0) := by
  unfold urlCount
  rw [List.countP_append]
  simp [List.countP_cons, beq_iff_eq]

theorem queueCount_append (q : List (CrawlTask × Int)) (e : CrawlTask × Int) (u : String) :
    queueCount (q ++ [e]) u = queueCount q u + (if e.1.url.href = u then 1 else 0) := by
  unfold queueCount
  rw [List.countP_append]
  simp [List.countP_cons, beq_iff_eq]

theorem queueCount_cons (q : List (CrawlTask × Int)) (e : CrawlTask × Int) (u : String) :
    queueCount (e :: q) u = (if e.1.url.href = u then 1 else 0) + queueCount q u := by
  unfold queueCount
  rw [List.countP_cons]
  simp [beq_iff_eq]
  omega

theorem urlCount_eq_zero (rs : List LinkResult) (u : String)
    (h : ∀ r ∈ rs, r.url ≠ u) : urlCount rs u = 0 := by
  unfold urlCount
  rw [List.countP_eq_zero]
  intro r hr
  simpa using h r hr

theorem queueCount_eq_zero (q : List (CrawlTask × Int)) (u : String)
    (h : ∀ e ∈ q, e.1.url.href ≠ u) : queueCount q u = 0 := by
  unfold queueCount
  rw [List.countP_eq_zero]
  intro e he
  simpa using h e he

/-- The run invariant only reads results, cache and queue. -/
theorem runInv_congr (env : Env) (st st' : RunState)
    (h1 : st'.results = st.results) (h2 : st'.cache = st.cache)
    (h3 : st'.queue = st.queue) (h : RunInv env st) : RunInv env st' := by
  unfold RunInv
  rw [h1, h2, h3]
  exact h

/-- The pending invariant only reads results, cache and queue. -/
theorem invP_congr (env : Env) (u : String) (st st' : RunState)
    (h1 : st'.results = st.results) (h2 : st'.cache = st.cache)
    (h3 : st'.queue = st.queue) (h : InvP env u st) : InvP env u st' := by
  obtain ⟨c1, c2, c3, c4, c5⟩ := h
  exact ⟨by rw [h2]; exact c1, by rw [h1, h2, h3]; exact c2, by rw [h2, h3]; exact c3,
    by rw [h1, h2]; exact c4, by rw [h2]; exact c5⟩

/-- Pushing the owed result for the pending URL restores the invariant. -/
theorem invP_push_main (env : Env) (h : String) (st : RunState) (r : LinkResult)
    (hr : r.url = h) (hp : InvP env h st) : RunInv env (pushResult st r) := by
  obtain ⟨cmem, counts, qcache, rOk, cacheOk⟩ := hp
  refine ⟨?_, ?_, ?_, ?_⟩
  · intro u hu
    rw [pushResult_cache] at hu
    rw [pushResult_results, pushResult_queue, urlCount_append, hr]
    have hc := counts u hu
    by_cases he : u = h
    · subst he
      rw [if_pos rfl] at hc
      rw [if_pos rfl]
      omega
    · rw [if_neg (fun hcn => he hcn.symm)]
      rw [if_neg he] at hc
      omega
  · intro e he
    rw [pushResult_queue] at he
    rw [pushResult_cache]
    exact qcache e he
  · intro x hx
    rw [pushResult_results] at hx
    rw [pushResult_cache]
    rcases List.mem_append.mp hx with hm | hm
    · exact rOk x hm
    · simp only [List.mem_singleton] at hm
      subst hm
      exact Or.inl (by rw [hr]; exact cmem)
  · intro u hu
    rw [pushResult_cache] at hu
    exact cacheOk u hu

/-- Re-enqueueing the pending task restores the invariant. -/
theorem invP_requeue (env : Env) (h : String) (st : RunState) (t : CrawlTask) (d : Int)
    (ht : t.url.href = h) (hp : InvP env h st) :
    RunInv env { st with queue := st.queue ++ [(t, d)] } := by
  obtain ⟨cmem, counts, qcache, rOk, cacheOk⟩ := hp
  refine ⟨?_, ?_, ?_, ?_⟩
  · intro u hu
    dsimp only at hu ⊢
    rw [queueCount_append, ht]
    have hc := counts u hu
    by_cases he : u = h
    · subst he
      rw [if_pos rfl] at hc
      rw [if_pos rfl]
      omega
    · rw [if_neg (fun hcn => he hcn.symm)]
      rw [if_neg he] at hc
      omega
  · intro e he
    dsimp only at he ⊢
    rcases List.mem_append.mp he with hm | hm
    · exact qcache e hm
    · simp only [List.mem_singleton] at hm
      subst hm
      rw [ht]
      exact cmem
  · intro x hx
    dsimp only at hx ⊢
    exact rOk x hx
  · intro u hu
    dsimp only at hu
    exact cacheOk u hu

/-- One child-link step preserves the run invariant, given that the parsed
link is extractor-shaped (failure witnessed, resolved serializations never
failing strings). -/
theorem childStep_inv (env : Env) (opts : CheckOpts) (ph rp : String)
    (st : RunState) (pl : ParsedLink) (hg : PLgood env pl) (hinv : RunInv env st) :
    RunInv env (childStep env opts ph rp st pl) := by
  obtain ⟨counts, qcache, rOk, cacheOk⟩ := hinv
  unfold childStep
  cases hpl : pl.url with
  | none =>
    have hfail : failedRaw env pl.link := hg.1 hpl
    refine ⟨?_, ?_, ?_, ?_⟩
    · intro u hu
      rw [pushResult_cache] at hu
      rw [pushResult_results, pushResult_queue, urlCount_append]
      dsimp only
      rw [if_neg (fun (hc : pl.link = u) => cacheOk u hu (hc ▸ hfail))]
      have := counts u hu
      omega
    · intro e he
      rw [pushResult_queue] at he
      rw [pushResult_cache]
      exact qcache e he
    · intro x hx
      rw [pushResult_results] at hx
      rw [pushResult_cache]
      rcases List.mem_append.mp hx with hm | hm
      · exact rOk x hm
      · simp only [List.mem_singleton] at hm
        subst hm
        exact Or.inr hfail
    · intro u hu
      rw [pushResult_cache] at hu
      exact cacheOk u hu
  | some u =>
    have hgood : ¬ failedRaw env u.href := hg.2 u hpl
    dsimp only
    split
    · exact ⟨counts, qcache, rOk, cacheOk⟩
    · rename_i hnc
      refine ⟨?_, ?_, ?_, ?_⟩
      · intro u' hu'
        dsimp only at hu' ⊢
        rw [queueCount_append]
        dsimp only
        rcases List.mem_append.mp hu' with hm | hm
        · rw [if_neg (fun (hc : u.href = u') => hnc (hc ▸ hm))]
          have := counts u' hm
          omega
        · simp only [List.mem_singleton] at hm
          subst hm
          rw [if_pos rfl]
          have h1 : urlCount st.results u.href = 0 :=
            urlCount_eq_zero _ _ (fun r hr hc => by
              rcases rOk r hr with hin | hf
              · exact hnc (hc ▸ hin)
              · exact hgood (hc ▸ hf))
          have h2 : queueCount st.queue u.href = 0 :=
            queueCount_eq_zero _ _ (fun e he hc => hnc (hc ▸ qcache e he))
          omega
      · intro e he
        dsimp only at he ⊢
        rcases List.mem_append.mp he with hm | hm
        · exact List.mem_append.mpr (Or.inl (qcache e hm))
        · simp only [List.mem_singleton] at hm
          subst hm
          exact List.mem_append.mpr (Or.inr (by simp))
      · intro x hx
        dsimp only at hx ⊢
        rcases rOk x hx with hin | hf
        · exact Or.inl (List.mem_append.mpr (Or.inl hin))
        · exact Or.inr hf
      · intro u' hu'
        dsimp only at hu'
        rcases List.mem_append.mp hu' with hm | hm
        · exact cacheOk u' hm
        · simp only [List.mem_singleton] at hm
          subst hm
          exact hgood

/-- The child-link fold preserves the run invariant. -/
theorem childFold_inv (env : Env) (opts : CheckOpts) (ph rp : String)
    (ls : List ParsedLink) (st : RunState)
    (hg : ∀ pl ∈ ls, PLgood env pl) (hinv : RunInv env st) :
    RunInv env (ls.foldl (childStep env opts ph rp) st) := by
  induction ls generalizing st with
  | nil => exact hinv
  | cons pl tl ih =>
    exact ih _ (fun x hx => hg x (List.mem_cons_of_mem pl hx))
      (childStep_inv env opts ph rp st pl (hg pl (List.mem_cons_self pl tl)) hinv)

/-- Every pair the extractor emits is extractor-shaped under a well-behaved
URL oracle. -/
theorem getLinksP_good (env : Env) (hge : GoodEnv env) (data base : String) :
    ∀ pl ∈ getLinksP env data base, PLgood env pl := by
  intro pl hpl
  unfold getLinksP at hpl
  rcases List.mem_map.mp hpl with ⟨l, _, hl⟩
  subst hl
  unfold parseLinkP
  cases hres : env.resolve l base with
  | none =>
    exact ⟨fun _ => ⟨base, hres⟩, fun u hu => by simp at hu⟩
  | some u0 =>
    refine ⟨fun hc => by simp at hc, fun u hu => ?_⟩
    simp only [Option.some.injEq] at hu
    subst hu
    rintro ⟨b, hb⟩
    exact hge.resolveOk l base u0 hres b hb

/-- Effect of `shouldRetryAfter` on the invariant: a truthy return has
re-enqueued the task (restoring the full invariant); a falsy return leaves
the pending invariant in place. -/
theorem sra_invP (env : Env) (now : Int) (t : CrawlTask) (res : Response) (st : RunState)
    (hp : InvP env t.url.href st) :
    (jsTruthy (shouldRetryAfter env now t res st).1 = true →
      RunInv env (shouldRetryAfter env now t res st).2) ∧
    (jsTruthy (shouldRetryAfter env now t res st).1 = false →
      InvP env t.url.href (shouldRetryAfter env now t res st).2) := by
  obtain ⟨q1, q2, q3, q4, d, hq⟩ := sra_state env now t res st
  constructor
  · intro ht
    rw [if_pos ht] at hq
    exact runInv_congr env { st with queue := st.queue ++ [(t, d)] } _ q1 q2 hq
      (invP_requeue env t.url.href st t d rfl hp)
  · intro ht
    rw [if_neg (by rw [ht]; exact Bool.false_ne_true)] at hq
    exact invP_congr env t.url.href st _ q1 q2 hq hp

/-- `finish` restores the run invariant from the pending invariant. -/
theorem finish_invP (env : Env) (opts : CheckOpts) (t : CrawlTask) (st : RunState)
    (res : Option Response) (fl : List FailureEntry) (hge : GoodEnv env)
    (hp : InvP env t.url.href st) : RunInv env (finish env opts t st res fl) := by
  unfold finish
  simp only []
  have h1 : RunInv env (pushResult st (mainResult t res fl)) :=
    invP_push_main env t.url.href st _ rfl hp
  split
  · refine childFold_inv env opts t.url.href t.rootPath _ _
      (getLinksP_good env hge (dataOf res) t.url.href) ?_
    exact runInv_congr env (pushResult st (mainResult t res fl)) _ rfl rfl rfl h1
  · exact h1

/-- `ladder3Get` restores the run invariant from the pending invariant. -/
theorem ladder3Get_invP (env : Env) (opts : CheckOpts) (now : Int) (t : CrawlTask)
    (st : RunState) (res : Option Response) (fl : List FailureEntry) (hge : GoodEnv env)
    (hp : InvP env t.url.href st) : RunInv env (ladder3Get env opts now t st res fl) := by
  unfold ladder3Get
  simp only []
  have hp1 : InvP env t.url.href (logProbe st t.url.href Method.GET RespType.text) :=
    invP_congr env t.url.href st _ rfl rfl rfl hp
  cases hreq : env.request t.url.href Method.GET RespType.text with
  | none => exact finish_invP env opts t _ res _ hge hp1
  | some r3 =>
    simp only []
    obtain ⟨htru, hfal⟩ := sra_invP env now t r3 _ hp1
    by_cases ht : jsTruthy (shouldRetryAfter env now t r3
        (logProbe st t.url.href Method.GET RespType.text)).1 = true
    · rw [if_pos ht]
      exact htru ht
    · rw [if_neg ht]
      exact finish_invP env opts t _ (some r3) fl hge (hfal (by simpa using ht))

/-- `ladder3` restores the run invariant from the pending invariant. -/
theorem ladder3_invP (env : Env) (opts : CheckOpts) (now : Int) (t : CrawlTask)
    (st : RunState) (res : Option Response) (fl : List FailureEntry) (hge : GoodEnv env)
    (hp : InvP env t.url.href st) : RunInv env (ladder3 env opts now t st res fl) := by
  unfold ladder3
  split
  · exact ladder3Get_invP env opts now t st res fl hge hp
  · exact finish_invP env opts t st res fl hge hp

/-- The probe phase restores the run invariant from the pending
invariant. -/
theorem probePhase_invP (env : Env) (opts : CheckOpts) (now : Int) (t : CrawlTask)
    (st : RunState) (hge : GoodEnv env)
    (hp : InvP env t.url.href st) : RunInv env (probePhase env opts now t st) := by
  unfold probePhase
  simp only []
  generalize (if t.crawl = true then Method.GET else Method.HEAD) = m1
  generalize (if t.crawl = true then RespType.text else RespType.stream) = rt1
  have hp1 : InvP env t.url.href (logProbe st t.url.href m1 rt1) :=
    invP_congr env t.url.href st _ rfl rfl rfl hp
  cases hreq : env.request t.url.href m1 rt1 with
  | none => exact ladder3_invP env opts now t _ none _ hge hp1
  | some r1 =>
    simp only []
    obtain ⟨htru1, hfal1⟩ := sra_invP env now t r1 _ hp1
    by_cases ht1 : jsTruthy (shouldRetryAfter env now t r1
        (logProbe st t.url.href m1 rt1)).1 = true
    · rw [if_pos ht1]
      exact htru1 ht1
    · rw [if_neg ht1]
      have hp2 : InvP env t.url.href (shouldRetryAfter env now t r1
          (logProbe st t.url.href m1 rt1)).2 := hfal1 (by simpa using ht1)
      split
      · have hp3 : InvP env t.url.href (logProbe (shouldRetryAfter env now t r1
            (logProbe st t.url.href m1 rt1)).2 t.url.href Method.GET RespType.stream) :=
          invP_congr env t.url.href
            (shouldRetryAfter env now t r1 (logProbe st t.url.href m1 rt1)).2 _
            rfl rfl rfl hp2
        cases hreq2 : env.request t.url.href Method.GET RespType.stream with
        | none => exact ladder3_invP env opts now t _ (some r1) _ hge hp3
        | some r2 =>
          simp only []
          obtain ⟨htru2, hfal2⟩ := sra_invP env now t r2 _ hp3
          by_cases ht2 : jsTruthy (shouldRetryAfter env now t r2
              (logProbe (shouldRetryAfter env now t r1 (logProbe st t.url.href m1 rt1)).2
                t.url.href Method.GET RespType.stream)).1 = true
          · rw [if_pos ht2]
            exact htru2 ht2
          · rw [if_neg ht2]
            exact ladder3_invP env opts now t _ (some r2) [] hge
              (hfal2 (by simpa using ht2))
      · exact ladder3_invP env opts now t _ (some r1) [] hge hp2

/-- The delay gate restores the run invariant from the pending invariant. -/
theorem delayPhase_invP (env : Env) (opts : CheckOpts) (now : Int) (t : CrawlTask)
    (st : RunState) (hge : GoodEnv env)
    (hp : InvP env t.url.href st) : RunInv env (delayPhase env opts now t st) := by
  unfold delayPhase
  cases hdc : lookupDC st.delayCache t.url.host with
  | none => exact probePhase_invP env opts now t st hge hp
  | some tv =>
    simp only []
    split
    · exact invP_requeue env t.url.href st t (tv.getD 0 - now) rfl hp
    · exact probePhase_invP env opts now t _ hge
        (invP_congr env t.url.href st _ rfl rfl rfl hp)

/-- One crawl step restores the run invariant from the pending invariant:
the popped task either contributes its one result or re-enqueues itself,
and each newly cached child URL is enqueued exactly once. -/
theorem crawlStep_invP (env : Env) (opts : CheckOpts) (now : Int) (t : CrawlTask)
    (st : RunState) (hge : GoodEnv env)
    (hp : InvP env t.url.href st) : RunInv env (crawlStep env opts now t st) := by
  unfold crawlStep
  split
  · exact invP_push_main env t.url.href st _ rfl hp
  · split
    · exact invP_push_main env t.url.href st _ rfl hp
    · exact delayPhase_invP env opts now t st hge hp

/-- Popping the queue head owes its URL one result: the pending invariant
holds for the remainder state. -/
theorem pop_invP (env : Env) (st : RunState) (t : CrawlTask) (d : Int)
    (rest : List (CrawlTask × Int)) (hq : st.queue = (t, d) :: rest)
    (hinv : RunInv env st) : InvP env t.url.href { st with queue := rest } := by
  obtain ⟨counts, qcache, rOk, cacheOk⟩ := hinv
  refine ⟨?_, ?_, ?_, ?_, ?_⟩
  · exact qcache (t, d) (by rw [hq]; exact List.mem_cons_self _ _)
  · intro u hu
    dsimp only at hu ⊢
    have hc := counts u hu
    rw [hq, queueCount_cons] at hc
    by_cases he : u = t.url.href
    · subst he
      rw [if_pos rfl] at hc
      rw [if_pos rfl]
      omega
    · rw [if_neg (fun hcn => he hcn.symm)] at hc
      rw [if_neg he]
      omega
  · intro e he
    dsimp only at he ⊢
    exact qcache e (by rw [hq]; exact List.mem_cons_of_mem _ he)
  · intro x hx
    dsimp only at hx ⊢
    exact rOk x hx
  · intro u hu
    dsimp only at hu
    exact cacheOk u hu

/-- The queue drain preserves the run invariant. -/
theorem runLoop_inv (env : Env) (opts : CheckOpts) (fuel : Nat) (now : Int)
    (st st' : RunState) (hge : GoodEnv env) (hinv : RunInv env st)
    (hrun : runLoop env opts fuel now st = some st') : RunInv env st' := by
  induction fuel generalizing now st with
  | zero =>
    unfold runLoop at hrun
    cases hq : st.queue with
    | nil =>
      rw [hq] at hrun
      cases hrun
      exact hinv
    | cons td rest =>
      rw [hq] at hrun
      cases hrun
  | succ n ih =>
    unfold runLoop at hrun
    cases hq : st.queue with
    | nil =>
      rw [hq] at hrun
      cases hrun
      exact hinv
    | cons td rest =>
      obtain ⟨t, d⟩ := td
      rw [hq] at hrun
      exact ih (now + 1) (crawlStep env opts now t { st with queue := rest })
        (crawlStep_invP env opts now t { st with queue := rest } hge
          (pop_invP env st t d rest hq hinv)) hrun

/-- A completed queue drain ends with an empty queue. -/
theorem runLoop_queue_nil (env : Env) (opts : CheckOpts) (fuel : Nat) (now : Int)
    (st st' : RunState) (hrun : runLoop env opts fuel now st = some st') :
    st'.queue = [] := by
  induction fuel generalizing now st with
  | zero =>
    unfold runLoop at hrun
    cases hq : st.queue with
    | nil =>
      rw [hq] at hrun
      cases hrun
      exact hq
    | cons td rest =>
      rw [hq] at hrun
      cases hrun
  | succ n ih =>
    unfold runLoop at hrun
    cases hq : st.queue with
    | nil =>
      rw [hq] at hrun
      cases hrun
      exact hq
    | cons td rest =>
      obtain ⟨t, d⟩ := td
      rw [hq] at hrun
      exact ih (now + 1) (crawlStep env opts now t { st with queue := rest }) hrun

/-- The empty state satisfies the run invariant. -/
theorem runInv_empty (env : Env) : RunInv env emptyState :=
  ⟨fun u hu => absurd hu (List.not_mem_nil u),
   fun e he => absurd he (List.not_mem_nil e),
   fun r hr => absurd hr (List.not_mem_nil r),
   fun u hu => absurd hu (List.not_mem_nil u)⟩

/-- The start loop preserves the run invariant when the parsed start URLs
are fresh (not yet cached) and pairwise distinct. -/
theorem startFrom_inv (env : Env) (hge : GoodEnv env) (ps : List String)
    (st st' : RunState)
    (hfresh : ∀ p ∈ ps, ∀ u, env.parseUrl p = some u → u.href ∉ st.cache)
    (hnodup : (startHrefs env ps).Nodup)
    (hinv : RunInv env st) (h : startFrom env st ps = some st') : RunInv env st' := by
  induction ps generalizing st with
  | nil =>
    unfold startFrom at h
    cases h
    exact hinv
  | cons p tl ih =>
    unfold startFrom addStart at h
    cases hp : env.parseUrl p with
    | none => rw [hp] at h; cases h
    | some u =>
      rw [hp] at h
      have hnew : u.href ∉ st.cache := hfresh p (List.mem_cons_self p tl) u hp
      have hsh : startHrefs env (p :: tl) = u.href :: startHrefs env tl := by
        unfold startHrefs
        rw [List.filterMap_cons]
        rw [hp]
        rfl
      rw [hsh] at hnodup
      have hmemtl : u.href ∉ startHrefs env tl := (List.nodup_cons.mp hnodup).1
      obtain ⟨counts, qcache, rOk, cacheOk⟩ := hinv
      have hgood : ¬ failedRaw env u.href := by
        rintro ⟨b, hb⟩
        exact hge.parseOk p u hp b hb
      have hmid : RunInv env
          { st with
            cache := setAdd st.cache u.href
            queue := st.queue ++
              [({ url := u, crawl := true, parent := none, rootPath := p }, 0)] } := by
        have hsa : setAdd st.cache u.href = st.cache ++ [u.href] := by
          unfold setAdd
          rw [if_neg hnew]
        refine ⟨?_, ?_, ?_, ?_⟩
        · intro u' hu'
          dsimp only at hu' ⊢
          rw [hsa] at hu'
          rw [queueCount_append]
          dsimp only
          rcases List.mem_append.mp hu' with hm | hm
          · rw [if_neg (fun (hc : u.href = u') => hnew (hc ▸ hm))]
            have := counts u' hm
            omega
          · simp only [List.mem_singleton] at hm
            subst hm
            rw [if_pos rfl]
            have h1 : urlCount st.results u.href = 0 :=
              urlCount_eq_zero _ _ (fun r hr hc => by
                rcases rOk r hr with hin | hf
                · exact hnew (hc ▸ hin)
                · exact hgood (hc ▸ hf))
            have h2 : queueCount st.queue u.href = 0 :=
              queueCount_eq_zero _ _ (fun e he hc => hnew (hc ▸ qcache e he))
            omega
        · intro e he
          dsimp only at he ⊢
          rw [hsa]
          rcases List.mem_append.mp he with hm | hm
          · exact List.mem_append.mpr (Or.inl (qcache e hm))
          · simp only [List.mem_singleton] at hm
            subst hm
            exact List.mem_append.mpr (Or.inr (by simp))
        · intro x hx
          dsimp only at hx ⊢
          rw [hsa]
          rcases rOk x hx with hin | hf
          · exact Or.inl (List.mem_append.mpr (Or.inl hin))
          · exact Or.inr hf
        · intro u' hu'
          dsimp only at hu'
          rw [hsa] at hu'
          rcases List.mem_append.mp hu' with hm | hm
          · exact cacheOk u' hm
          · simp only [List.mem_singleton] at hm
            subst hm
            exact hgood
      refine ih
        { st with
          cache := setAdd st.cache u.href
          queue := st.queue ++
            [({ url := u, crawl := true, parent := none, rootPath := p }, 0)] }
        ?_ (List.nodup_cons.mp hnodup).2 hmid h
      intro p' hp' u' hpu' hmem
      dsimp only at hmem
      rw [setAdd, if_neg hnew] at hmem
      rcases List.mem_append.mp hmem with hm | hm
      · exact hfresh p' (List.mem_cons_of_mem p hp') u' hpu' hm
      · simp only [List.mem_singleton] at hm
        apply hmemtl
        rw [← hm]
        unfold startHrefs
        exact List.mem_filterMap.mpr ⟨p', hp', by rw [hpu']; rfl⟩

/-- C1 (amended): provided the starting paths parse to pairwise-distinct
URL strings (start tasks are enqueued unconditionally, so duplicate
starting URLs yield duplicate results) and the URL oracle is well-behaved,
a completed run has exactly one LinkResult for every URL string in the
visit cache; moreover a child task is enqueued only when the cache does not
already contain its URL, and the URL is added to the cache in the same
step, while an already-cached child URL leaves the state untouched. -/
theorem c1_cache_exactly_one_result (env : Env) (opts : CheckOpts) (paths : List String)
    (fuel : Nat) (t0 : Int) (st : RunState)
    (hge : GoodEnv env)
    (hnodup : (startHrefs env paths).Nodup)
    (hrun : runStates env opts paths fuel t0 = some st) :
    (∀ u ∈ st.cache, urlCount st.results u = 1) ∧
    (∀ (ph rp : String) (st1 : RunState) (pl : ParsedLink) (u : Url),
      pl.url = some u → u.href ∈ st1.cache →
      childStep env opts ph rp st1 pl = st1) ∧
    (∀ (ph rp : String) (st1 : RunState) (pl : ParsedLink) (u : Url),
      pl.url = some u → u.href ∉ st1.cache →
      (childStep env opts ph rp st1 pl).cache = st1.cache ++ [u.href] ∧
      ∃ c, (childStep env opts ph rp st1 pl).queue = st1.queue ++
        [({ url := u, crawl := c, parent := some ph, rootPath := rp }, 0)]) := by
  refine ⟨?_, ?_, ?_⟩
  · unfold runStates at hrun
    cases hss : startState env paths with
    | none => rw [hss] at hrun; cases hrun
    | some st0 =>
      rw [hss] at hrun
      have hinv0 : RunInv env st0 :=
        startFrom_inv env hge paths emptyState st0
          (fun p _ u _ hmem => absurd hmem (List.not_mem_nil _)) hnodup
          (runInv_empty env) hss
      have hinv : RunInv env st := runLoop_inv env opts fuel t0 st0 st hge hinv0 hrun
      have hqnil : st.queue = [] := runLoop_queue_nil env opts fuel t0 st0 st hrun
      obtain ⟨counts, _, _, _⟩ := hinv
      intro u hu
      have hc := counts u hu
      rw [hqnil] at hc
      simpa [queueCount] using hc
  · intro ph rp st1 pl u hpu hcached
    unfold childStep
    rw [hpu]
    simp only []
    rw [if_pos hcached]
  · intro ph rp st1 pl u hpu hnc
    unfold childStep
    rw [hpu]
    simp only []
    rw [if_neg hnc]
    exact ⟨rfl, _, rfl⟩

/-- Witness for C1 on a concrete distinct-start run: the single cached URL
has exactly one result. -/
theorem c1_cache_exactly_one_result_witness :
    urlCount [{ url := "http://h/a", status := some 200, state := LinkState.OK,
                parent := none, failureDetails := some [] }] "http://h/a" = 1 := by
  have hge : GoodEnv envW :=
    ⟨fun s b u h b' hc => Option.noConfusion hc,
     fun p u h b' hc => Option.noConfusion hc⟩
  exact (c1_cache_exactly_one_result envW optsPlain ["http://h/a"] 2 0
    { results := [{ url := "http://h/a", status := some 200, state := LinkState.OK,
                    parent := none, failureDetails := some [] }],
      cache := ["http://h/a"], delayCache := [], queue := [],
      events := [Event.link { url := "http://h/a", status := some 200,
                              state := LinkState.OK, parent := none,
                              failureDetails := some [] }],
      probes := [{ url := "http://h/a", method := Method.GET,
                   responseType := RespType.text }] }
    hge (by decide) (by decide)).1 "http://h/a" (by decide)

/-- C1 counterexample: a run whose two starting paths are the same URL
string — start tasks are enqueued unconditionally — completes with that URL
cached once but TWO LinkResults carrying it, so the claim's "exactly one"
fails as stated for arbitrary runs. -/
theorem c1_duplicate_start_counterexample :
    (runStates envW optsPlain ["http://h/a", "http://h/a"] 3 0).map
      (fun st => (decide ("http://h/a" ∈ st.cache), urlCount st.results "http://h/a")) =
      some (true, 2) := by
  decide
